import Mathlib

/-!
# Verification development for `timeout.go`

A shallow embedding of the `timeout` utility (`src/timeout.go`): the signal
registry (`ParseSignal`, `signalMap`), the duration parser (`ParseTimeout`),
the configuration phase of `main`, and the supervisor (`Timeout.Start`,
`Timeout.Wait`).

Go strings are modelled by Lean strings (lists of Unicode code points).  The
functions below only ever branch on ASCII bytes, and every byte of a
multi-byte UTF-8 sequence is `≥ 0x80`, so scanning code points is the same as
scanning bytes for every valid UTF-8 input.
-/

namespace PosixTimeout

/-! ## Signal registry -/

/-- Go `syscall.Signal` (`type Signal int`). -/
abbrev Signal := Int

/-! The `syscall.SIG*` constants, with their Linux numbering. -/

def SIGHUP : Signal := 1
def SIGINT : Signal := 2
def SIGQUIT : Signal := 3
def SIGILL : Signal := 4
def SIGTRAP : Signal := 5
def SIGABRT : Signal := 6
def SIGBUS : Signal := 7
def SIGKILL : Signal := 9
def SIGUSR1 : Signal := 10
def SIGSEGV : Signal := 11
def SIGUSR2 : Signal := 12
def SIGPIPE : Signal := 13
def SIGALRM : Signal := 14
def SIGTERM : Signal := 15
def SIGCHLD : Signal := 17
def SIGCONT : Signal := 18
def SIGSTOP : Signal := 19
def SIGTSTP : Signal := 20

/-- The package-level `signalMap` (timeout.go:207-226), as an association list
with the entries in source order. -/
def signalMap : List (String × Signal) :=
  [ ("ABRT", SIGABRT), ("ALRM", SIGALRM), ("BUS", SIGBUS), ("CHLD", SIGCHLD),
    ("CONT", SIGCONT), ("HUP", SIGHUP), ("ILL", SIGILL), ("INT", SIGINT),
    ("KILL", SIGKILL), ("PIPE", SIGPIPE), ("QUIT", SIGQUIT), ("SEGV", SIGSEGV),
    ("STOP", SIGSTOP), ("TERM", SIGTERM), ("TRAP", SIGTRAP), ("TSTP", SIGTSTP),
    ("USR1", SIGUSR1), ("USR2", SIGUSR2) ]

/-- Go `unicode.ToUpper` restricted to ASCII runes: `a`..`z` are shifted to
`A`..`Z`, every other ASCII rune is unchanged. -/
def asciiToUpper (c : Char) : Char :=
  if 97 ≤ c.toNat ∧ c.toNat ≤ 122 then Char.ofNat (c.toNat - 32) else c

/-- Go `strings.ToUpper`: a rune-wise map.  ASCII runes go through
`asciiToUpper`; the Unicode case tables that decide the non-ASCII runes are
not part of the repository and are taken as the parameter `unicodeUpper`. -/
def ToUpper (unicodeUpper : Char → Char) (s : String) : String :=
  String.mk (s.data.map fun c => if c.toNat < 128 then asciiToUpper c else unicodeUpper c)

/-- The error values built with `fmt.Errorf` in timeout.go, carrying the
string that is formatted into the message. -/
inductive Error where
  | cannotParseDuration (input : String)
  | unknownSignal (name : String)
  deriving DecidableEq

/-- The function `ParseSignal` (timeout.go:198-205): look the upper-cased name up in
`signalMap`; on a miss return `SIGTERM` together with an error. -/
def ParseSignal (unicodeUpper : Char → Char) (name : String) : Signal × Option Error :=
  match signalMap.lookup (ToUpper unicodeUpper name) with
  | some signal => (signal, none)
  | none => (SIGTERM, some (Error.unknownSignal name))

/-- A string `name` is an ASCII case variant of `key` when it has the same
length and each character is the key's character or, where that is an
upper-case ASCII letter, its lower-case form. -/
def asciiCaseVariant (name key : String) : Prop :=
  List.Forall₂
    (fun c k => c = k ∨ (65 ≤ k.toNat ∧ k.toNat ≤ 90 ∧ c = Char.ofNat (k.toNat + 32)))
    name.data key.data

/-! ## `strconv.ParseFloat` (Go standard library)

`ParseTimeout` only inspects the error result of `strconv.ParseFloat(_, 64)`,
so the model computes whether that error is nil.  The syntax check follows
`special`, `readFloat` and `underscoreOK` of package `strconv`; the range
check follows the documented contract (the result is the nearest float64, and
`ErrRange` is reported when it would be infinite), evaluated on the exact
value denoted by the scanned digits. -/

/-- The byte test `'0' <= c && c <= '9'`. -/
def isDigit (c : Char) : Bool := decide (48 ≤ c.toNat ∧ c.toNat ≤ 57)

/-- The value `c - '0'` of a digit byte. -/
def digitVal (c : Char) : Nat := c.toNat - 48

/-- The `strconv` helper `lower(c) = c | ('x' - 'X')`. -/
def lower (c : Char) : Nat := c.toNat ||| 32

/-- The test `'a' <= lower(c) && lower(c) <= 'f'` for a hexadecimal letter. -/
def isHexLetter (c : Char) : Bool := decide (97 ≤ lower c ∧ lower c ≤ 102)

/-- The `strconv` helper `commonPrefixLenIgnoreCase(s, prefix)`, for a
lower-case `prefix`. -/
def commonPrefixLenIgnoreCase : List Char → List Char → Nat
  | c :: cs, p :: ps =>
    let c1 := if 65 ≤ c.toNat ∧ c.toNat ≤ 90 then c.toNat + 32 else c.toNat
    if c1 = p.toNat then 1 + commonPrefixLenIgnoreCase cs ps else 0
  | _, _ => 0

/-- The `case 'i', 'I'` arm of `special`: recognise `inf` or `infinity`;
`nsign` is the number of sign bytes already consumed. -/
def specialInf (s : List Char) (nsign : Nat) : Option Nat :=
  let n := commonPrefixLenIgnoreCase s ['i', 'n', 'f', 'i', 'n', 'i', 't', 'y']
  let n := if 3 < n ∧ n < 8 then 3 else n
  if n = 3 ∨ n = 8 then some (nsign + n) else none

/-- The `strconv` helper `special`: the number of bytes consumed when `s`
starts with an infinity or NaN, `none` when it does not. -/
def special : List Char → Option Nat
  | [] => none
  | c :: cs =>
    if c = '+' ∨ c = '-' then specialInf cs 1
    else if c = 'i' ∨ c = 'I' then specialInf (c :: cs) 0
    else if c = 'n' ∨ c = 'N' then
      if commonPrefixLenIgnoreCase (c :: cs) ['n', 'a', 'n'] = 3 then some 3 else none
    else none

/-- Loop state of the digit scan in `readFloat`.  `mantissa` accumulates every
significant digit (strconv keeps the first 19 and a `trunc` flag, and re-reads
the text when it needs more). -/
structure Scan where
  sawdot : Bool
  sawdigits : Bool
  nd : Nat
  dp : Int
  mantissa : Nat
  underscores : Bool
  deriving DecidableEq

/-- The `loop:` of `readFloat`: consume digits, underscores and at most one
decimal point; return the state and the unread rest. -/
def scanMantissa (hex : Bool) : List Char → Scan → Scan × List Char
  | [], st => (st, [])
  | c :: cs, st =>
    if c = '_' then scanMantissa hex cs { st with underscores := true }
    else if c = '.' then
      if st.sawdot then (st, c :: cs)
      else scanMantissa hex cs { st with sawdot := true, dp := st.nd }
    else if isDigit c then
      if c = '0' ∧ st.nd = 0 then
        scanMantissa hex cs { st with sawdigits := true, dp := st.dp - 1 }
      else
        scanMantissa hex cs { st with
          sawdigits := true, nd := st.nd + 1,
          mantissa := st.mantissa * (if hex then 16 else 10) + digitVal c }
    else if hex ∧ isHexLetter c then
      scanMantissa hex cs { st with
        sawdigits := true, nd := st.nd + 1,
        mantissa := st.mantissa * 16 + (lower c - 97 + 10) }
    else (st, c :: cs)

/-- The exponent digit loop of `readFloat`: digits and underscores, with the
accumulated exponent frozen once it reaches 10000. -/
def scanExponent : List Char → Nat → Bool → Nat × Bool × List Char
  | [], e, us => (e, us, [])
  | c :: cs, e, us =>
    if isDigit c then scanExponent cs (if e < 10000 then e * 10 + digitVal c else e) us
    else if c = '_' then scanExponent cs e true
    else (e, us, c :: cs)

/-- The loop of `underscoreOK`; `saw` is the class of the previous byte. -/
def underscoreLoop (hex : Bool) : List Char → Char → Bool
  | [], saw => saw ≠ '_'
  | c :: cs, saw =>
    if isDigit c ∨ (hex ∧ isHexLetter c) then underscoreLoop hex cs '0'
    else if c = '_' then
      if saw ≠ '0' then false else underscoreLoop hex cs '_'
    else if saw = '_' then false
    else underscoreLoop hex cs '!'

/-- The `strconv` helper `underscoreOK`: underscores may only separate digits
(or follow a base prefix). -/
def underscoreOK (s : List Char) : Bool :=
  let s := match s with
    | c :: cs => if c = '-' ∨ c = '+' then cs else c :: cs
    | [] => []
  match s with
  | c0 :: c1 :: rest =>
    if c0 = '0' ∧ (lower c1 = 98 ∨ lower c1 = 111 ∨ lower c1 = 120) then
      underscoreLoop (lower c1 = 120) rest '0'
    else underscoreLoop false s '^'
  | _ => underscoreLoop false s '^'

/-- What `readFloat` hands on when it accepts: the base of the exponent, the
digits read as a number, the power of the base that scales them, and the
unread rest of the input. -/
structure FloatText where
  base : Nat
  mantissa : Nat
  exp : Int
  underscores : Bool
  rest : List Char
  deriving DecidableEq

/-- The optional exponent of `readFloat`, entered after the exponent
character has been seen: `none` on a syntax error, otherwise the signed
exponent, the underscore flag and the rest. -/
def readExponent (s : List Char) (us : Bool) : Option (Int × Bool × List Char) :=
  match s with
  | [] => none
  | c :: cs =>
    let esign : Int := if c = '-' then -1 else 1
    let s1 := if c = '+' ∨ c = '-' then cs else c :: cs
    match s1 with
    | [] => none
    | d :: _ =>
      if isDigit d then
        let r := scanExponent s1 0 us
        some ((r.1 : Int) * esign, r.2.1, r.2.2)
      else none

/-- The `strconv` function `readFloat`: sign, optional `0x` prefix, mantissa,
optional exponent (mandatory for hexadecimal), underscore check. -/
def readFloat (s : List Char) : Option FloatText :=
  match s with
  | [] => none
  | c :: cs =>
    let s1 := if c = '+' ∨ c = '-' then cs else c :: cs
    let hex : Bool := match s1 with
      | c0 :: c1 :: _ :: _ => decide (c0 = '0' ∧ lower c1 = 120)
      | _ => false
    let body := if hex then s1.drop 2 else s1
    let r := scanMantissa hex body ⟨false, false, 0, 0, 0, false⟩
    let st := r.1
    if st.sawdigits = false then none
    else
      let dp : Int := if st.sawdot then st.dp else st.nd
      let dp : Int := if hex then dp * 4 else dp
      let ndBits : Int := if hex then (st.nd : Int) * 4 else st.nd
      let expChar : Nat := if hex then 112 else 101
      let fin : Option (Int × Bool × List Char) :=
        match r.2 with
        | e :: es =>
          if lower e = expChar then
            (readExponent es st.underscores).map fun x => (dp + x.1, x.2.1, x.2.2)
          else if hex then none
          else some (dp, st.underscores, e :: es)
        | [] => if hex then none else some (dp, st.underscores, [])
      match fin with
      | none => none
      | some (dp, us, rest) =>
        if us ∧ underscoreOK (s.take (s.length - rest.length)) = false then none
        else some ⟨if hex then 2 else 10, st.mantissa, dp - ndBits, us, rest⟩

/-- The smallest magnitude that rounds to an infinite float64: half an ulp
above the largest finite value, `2^1024 - 2^970`. -/
def float64Overflow : Nat :=
  0xFFFFFFFFFFFFFC00000000000000000000000000000000000000000000000000000000000000000000000000000000000000000000000000000000000000000000000000000000000000000000000000000000000000000000000000000000000000000000000000000000000000000000000000000000000000000000000000

/-- Whether the exact value `mantissa * base^exp` rounds to infinity. -/
def rangeError (base mantissa : Nat) (exp : Int) : Bool :=
  if 0 ≤ exp then decide (float64Overflow ≤ mantissa * base ^ exp.toNat)
  else decide (float64Overflow * base ^ (-exp).toNat ≤ mantissa)

/-- The `strconv.ParseFloat(s, 64)` error result: `true` when the error is
nil.  An infinity or NaN is accepted when it spans the whole input; otherwise
`readFloat` must accept and consume the whole input, and the value must not
overflow. -/
def ParseFloat (s : List Char) : Bool :=
  match special s with
  | some n => n = s.length
  | none =>
    match readFloat s with
    | none => false
    | some ft => ft.rest.isEmpty && !rangeError ft.base ft.mantissa ft.exp

/-! ## `time.ParseDuration` (Go standard library)

Durations are `int64` nanosecond counts, modelled by `Int`; the unsigned
64-bit accumulators of the parser are modelled by `Nat`, with the parser's own
overflow tests transcribed and the remaining additions reduced modulo `2^64`.
The fractional part of a component is computed by Go in float64 arithmetic;
`round64` is round-to-nearest-even on exact rationals (all operands of the
parser lie in the normal range of float64). -/

/-- A non-negative rational `num / den` with `den > 0`; used for the exact
values of float64 numbers. -/
structure Q where
  num : Nat
  den : Nat
  deriving DecidableEq

/-- The position of the leading bit of `n` (`⌊log₂ n⌋`, and 0 for `n = 0`),
by repeated halving; `fuel = n` halvings are always enough. -/
def log2Fuel : Nat → Nat → Nat
  | 0, _ => 0
  | fuel + 1, n => if n < 2 then 0 else 1 + log2Fuel fuel (n / 2)

/-- Round the exact rational `num / den` to the nearest float64 (53-bit
significand, ties to even), returned as an exact rational. -/
def round64 (num den : Nat) : Q :=
  if num = 0 ∨ den = 0 then ⟨0, 1⟩
  else
    -- choose the shift `sh` with `2^52 ≤ num / (den * 2^sh) < 2^53`
    let l : Int := (log2Fuel num num : Int) - (log2Fuel den den : Int)
    let ge : Bool := if 0 ≤ l then decide (den * 2 ^ l.toNat ≤ num)
                     else decide (den ≤ num * 2 ^ (-l).toNat)
    let e : Int := if ge then l else l - 1
    let sh : Int := e - 52
    let n1 : Nat := if 0 ≤ sh then num else num * 2 ^ (-sh).toNat
    let d1 : Nat := if 0 ≤ sh then den * 2 ^ sh.toNat else den
    let q := n1 / d1
    let r := n1 % d1
    let m := if 2 * r < d1 then q else if d1 < 2 * r then q + 1
             else if q % 2 = 0 then q else q + 1
    if 0 ≤ sh then ⟨m * 2 ^ sh.toNat, 1⟩ else ⟨m, 2 ^ (-sh).toNat⟩

/-- The float64 product `a * b`. -/
def Q.mul (a b : Q) : Q := round64 (a.num * b.num) (a.den * b.den)

/-- The float64 quotient `a / b` (for `b ≠ 0`). -/
def Q.div (a b : Q) : Q := round64 (a.num * b.den) (a.den * b.num)

/-- The conversion `float64(n)` of an unsigned integer. -/
def Q.ofNat (n : Nat) : Q := round64 n 1

/-- The conversion `uint64(x)` of a non-negative float64: truncation. -/
def Q.toUint64 (x : Q) : Nat := (x.num / x.den) % 2 ^ 64

/-- The package-level `unitMap` of package `time`, in nanoseconds. -/
def unitMap : List (List Char × Nat) :=
  [ (['n', 's'], 1), (['u', 's'], 1000), (['µ', 's'], 1000), (['μ', 's'], 1000),
    (['m', 's'], 1000000), (['s'], 1000000000), (['m'], 60000000000),
    (['h'], 3600000000000) ]

/-- The `time` helper `leadingInt`: consume `[0-9]*`; `none` when the value
overflows `1 << 63`. -/
def leadingInt : List Char → Nat → Option (Nat × List Char)
  | [], x => some (x, [])
  | c :: cs, x =>
    if isDigit c then
      if x > 2 ^ 63 / 10 then none
      else
        let x1 := x * 10 + digitVal c
        if x1 > 2 ^ 63 then none else leadingInt cs x1
    else some (x, c :: cs)

/-- The `time` helper `leadingFraction`: consume `[0-9]*`, accumulating the
digits in `x` and their scale in the float64 `scale` until `x` would overflow;
later digits are consumed and ignored. -/
def leadingFraction : List Char → Nat → Q → Bool → Nat × Q × List Char
  | [], x, scale, _ => (x, scale, [])
  | c :: cs, x, scale, overflow =>
    if isDigit c then
      if overflow then leadingFraction cs x scale true
      else if x > (2 ^ 63 - 1) / 10 then leadingFraction cs x scale true
      else
        let y := x * 10 + digitVal c
        if y > 2 ^ 63 then leadingFraction cs x scale true
        else leadingFraction cs y (Q.mul scale ⟨10, 1⟩) false
    else (x, scale, c :: cs)

/-- The unit scan of `ParseDuration`: the bytes up to the next `.` or digit. -/
def spanUnit : List Char → List Char × List Char
  | [] => ([], [])
  | c :: cs =>
    if c = '.' ∨ isDigit c then ([], c :: cs)
    else ((c :: (spanUnit cs).1), (spanUnit cs).2)

/-- One pass of the `for s != ""` loop of `ParseDuration` on a non-empty `s`:
parse a component `[0-9]*(\.[0-9]*)?unit` and return the accumulated
nanoseconds and the rest, or `none` on any of the loop's error returns. -/
def parseComponent (s : List Char) (d : Nat) : Option (Nat × List Char) :=
  match s with
  | [] => none
  | c :: _ =>
    if ¬ (c = '.' ∨ isDigit c) then none
    else
      match leadingInt s 0 with
      | none => none
      | some (v, s1) =>
        let pre : Bool := decide (s.length ≠ s1.length)
        let fr : Nat × Q × List Char × Bool :=
          match s1 with
          | c1 :: s2 =>
            if c1 = '.' then
              let r := leadingFraction s2 0 ⟨1, 1⟩ false
              (r.1, r.2.1, r.2.2, decide (s2.length ≠ r.2.2.length))
            else (0, ⟨1, 1⟩, s1, false)
          | [] => (0, ⟨1, 1⟩, s1, false)
        let f := fr.1
        let scale := fr.2.1
        let s3 := fr.2.2.1
        let post := fr.2.2.2
        if pre = false ∧ post = false then none
        else
          let u := (spanUnit s3).1
          let s4 := (spanUnit s3).2
          if u = [] then none
          else
            match unitMap.lookup u with
            | none => none
            | some unit =>
              if v > 2 ^ 63 / unit then none
              else
                let v1 := v * unit
                let v2 := if f > 0 then
                    (v1 + Q.toUint64 (Q.mul (Q.ofNat f) (Q.div (Q.ofNat unit) scale))) % 2 ^ 64
                  else v1
                if f > 0 ∧ v2 > 2 ^ 63 then none
                else
                  let d1 := (d + v2) % 2 ^ 64
                  if d1 > 2 ^ 63 then none else some (d1, s4)

/-- The `for s != ""` loop of `ParseDuration`.  Every pass consumes at least
one byte, so `fuel = s.length` passes always suffice. -/
def parseLoop : Nat → List Char → Nat → Option Nat
  | _, [], d => some d
  | 0, _ :: _, _ => none
  | fuel + 1, c :: cs, d =>
    match parseComponent (c :: cs) d with
    | none => none
    | some (d1, rest) => parseLoop fuel rest d1

/-- Go `time.ParseDuration`: `none` for an error, otherwise the duration in
nanoseconds. -/
def ParseDuration (s : List Char) : Option Int :=
  let neg : Bool := match s with
    | c :: _ => decide (c = '-')
    | [] => false
  let s1 := match s with
    | c :: cs => if c = '-' ∨ c = '+' then cs else c :: cs
    | [] => []
  if s1 = ['0'] then some 0
  else if s1 = [] then none
  else
    match parseLoop s1.length s1 0 with
    | none => none
    | some d =>
      if neg then some (-(d : Int))
      else if d > 2 ^ 63 - 1 then none
      else some (d : Int)

/-! ## The duration parser of timeout.go -/

/-- Go `strings.Contains(s, substr)`. -/
def stringsContains (s substr : List Char) : Bool :=
  s.tails.any fun t => substr.isPrefixOf t

/-- Wrap an integer into the `int64` range (two's complement). -/
def wrapInt64 (x : Int) : Int := (x + 2 ^ 63) % 2 ^ 64 - 2 ^ 63

/-- The function `ParseTimeout` (timeout.go:163-196).  The result is the pair
`(duration, err)` of the Go function.  The flag `isDay` is initialised to
false and never assigned: the branch `if lastChar == "d"` of the source is
empty. -/
def ParseTimeout (input : String) : Int × Option Error :=
  let allowedEndings : List Char := ['s', 'm', 'h', 'd']
  let isDay : Bool := false
  -- `lastChar` stays "" for the empty input, else it is the last byte
  let lastChar : List Char := match input.data.getLast? with
    | some c => [c]
    | none => []
  let fstr : List Char :=
    if input.data ≠ [] ∧ stringsContains allowedEndings lastChar then input.data.dropLast
    else input.data
  if ParseFloat fstr = false then (0, some (Error.cannotParseDuration input))
  else
    let input1 : List Char :=
      if stringsContains allowedEndings lastChar = false then input.data ++ ['s']
      else input.data
    match ParseDuration input1 with
    | none => (0, some (Error.cannotParseDuration (String.mk input1)))
    | some duration =>
      let duration := if isDay then wrapInt64 (duration * 24) else duration
      (duration, none)

/-- The natural number denoted by a string of ASCII decimal digits. -/
def decimalValue (N : List Char) : Nat :=
  N.foldl (fun a c => a * 10 + digitVal c) 0

/-- The input with at most one trailing character of "smhd" removed: the
string that `ParseTimeout` hands to `strconv.ParseFloat`. -/
def stripUnit (s : List Char) : List Char :=
  match s.getLast? with
  | some c => if c = 's' ∨ c = 'm' ∨ c = 'h' ∨ c = 'd' then s.dropLast else s
  | none => s

/-! ## The supervisor: `Timeout.Start`, `Timeout.Wait` and `main`

The effects of the program are recorded as a list of events, in program
order.  `os.Exit` ends the run at once (deferred calls do not run); writes to
standard error are not recorded.  What the operating system and package
`os/exec` report back (the result of `cmd.Start`, of `cmd.Wait` and of
`ctx.Err`) is an input of the model.

While `cmd.Wait` blocks, package `os/exec` acts on its own: it runs the
`Cancel` closure when the deadline context is done, and it kills the child
process after `WaitDelay`.  Those actions take place inside `cmd.Wait`; the
events of `Timeout.Wait` are the effects of the code of timeout.go after
`cmd.Wait` has returned. -/

/-- Go `time.Second`, in nanoseconds. -/
def Second : Int := 1000000000

/-- The configuration fields of `type Timeout struct` (timeout.go:16-27); the
runtime fields `cmd`, `ctx` and `cancel` are represented by `Cmd` and by the
inputs of `Timeout.Wait`. -/
structure Timeout where
  timeoutDuration : Int
  timeoutSignal : Signal
  killDelay : Int
  ignoreProcessGroup : Bool
  preserveStatus : Bool
  command : String
  arguments : List String
  deriving DecidableEq

/-- Who receives a signal sent to the child: the child process alone
(`cmd.Process.Signal`, `cmd.Process.Kill`) or its process group
(`syscall.Kill(-pid, _)`). -/
inductive Target where
  | process
  | group
  deriving DecidableEq

/-- Observable effects of a run. -/
inductive Event where
  /-- The call `t.Start()` was made with configuration `t`. -/
  | start (t : Timeout)
  /-- A system call that sends `sig` to the child process (its pid) or to its
  process group (`-pid`). -/
  | signal (target : Target) (sig : Signal)
  /-- The call `time.Sleep(d)`. -/
  | sleep (d : Int)
  /-- The call `syscall.Kill(os.Getpid(), sig)`. -/
  | selfSignal (sig : Signal)
  /-- The deferred `t.cancel()` ran. -/
  | cancel
  deriving DecidableEq

/-- A run: its events, and the status passed to `os.Exit` if it was called
(`none` when the function returned instead). -/
structure Outcome where
  events : List Event
  exit : Option Int
  deriving DecidableEq

/-- The fields of `exec.Cmd` that `Timeout.Start` sets from the
configuration. -/
structure Cmd where
  path : String
  args : List String
  WaitDelay : Int
  Setpgid : Bool
  deriving DecidableEq

/-- The error returned by the `cmd.Cancel` closure. -/
inductive CancelErr where
  /-- Wraps `os.ErrProcessDone` ("force Wait() to preserve error"). -/
  | processDone
  /-- The plain error "deadline reached". -/
  | deadlineReached
  deriving DecidableEq

/-- Go `(*os.Process).Signal(sig)`, and `(*os.Process).Kill()` for SIGKILL,
on the child.  When the child has already been waited for (`reaped`), the call
returns `os.ErrProcessDone` and sends nothing; otherwise it sends `sig` to the
child process. -/
def processSignal (reaped : Bool) (sig : Signal) : List Event :=
  if reaped then [] else [Event.signal Target.process sig]

/-- The `t.cmd.Cancel` closure installed by `Start` (timeout.go:98-109), run
by `os/exec` when the deadline context is done: deliver `timeoutSignal` to the
child (`t.cmd.Process.Signal`) or to its group (`syscall.Kill(-pid, _)`).
Whether the child has been waited for by then (`reaped`) is reported by the
environment. -/
def Timeout.Cancel (t : Timeout) (reaped : Bool) : List Event × CancelErr :=
  let ev := if t.ignoreProcessGroup then processSignal reaped t.timeoutSignal
            else [Event.signal Target.group t.timeoutSignal]
  if t.preserveStatus then (ev, CancelErr.processDone) else (ev, CancelErr.deadlineReached)

/-- The method `Timeout.Start` (timeout.go:93-118), up to the call of `cmd.Start()`: the
command it configures.  `WaitDelay` keeps its zero value unless
`killDelay > -1` (a comparison with the duration of -1 nanosecond). -/
def Timeout.Start (t : Timeout) : Cmd :=
  { path := t.command
    args := t.arguments
    WaitDelay := if t.killDelay > -1 then t.killDelay else 0
    Setpgid := !t.ignoreProcessGroup }

/-- Go `syscall.WaitStatus` of a child reaped by `cmd.Wait`: it exited with a
code, or it was terminated by a signal. -/
inductive WaitStatus where
  | exited (code : Int)
  | signaled (sig : Signal)
  deriving DecidableEq

/-- The error returned by `cmd.Wait()`.  For an error of another kind the
environment also reports whether the inner `c.Process.Wait()` had succeeded,
that is, whether the child was reaped. -/
inductive WaitErr where
  | nil
  | exitError (status : WaitStatus)
  | errWaitDelay
  | other (reaped : Bool)
  deriving DecidableEq

/-- Whether `cmd.Wait` has reaped the child.  A nil result, an `ExitError` and
`ErrWaitDelay` are only returned after `c.Process.Wait()` has succeeded. -/
def WaitErr.reaped : WaitErr → Bool
  | WaitErr.other reaped => reaped
  | _ => true

/-- The value of `t.ctx.Err()`. -/
inductive CtxErr where
  | nil
  | deadlineExceeded
  | canceled
  deriving DecidableEq

/-- The forced kill of `Timeout.Wait` (timeout.go:126-133), run after
`cmd.Wait` has returned: nothing unless `killDelay > -1`, else sleep for
`killDelay` and then call `t.cmd.Process.Kill()` (with `-f`) or
`syscall.Kill(-pid, SIGKILL)`.  The call of `Process.Kill` sends nothing when
`cmd.Wait` has reaped the child. -/
def Timeout.escalate (t : Timeout) (reaped : Bool) : List Event :=
  if t.killDelay > -1 then
    Event.sleep t.killDelay ::
      (if t.ignoreProcessGroup then processSignal reaped SIGKILL
       else [Event.signal Target.group SIGKILL])
  else []

/-- The method `Timeout.Wait` (timeout.go:120-159), given the results of
`t.cmd.Wait()` and `t.ctx.Err()`.  A signal sent to the own pid is recorded and
the code then returns; whether that signal ends the process is decided by the
operating system. -/
def Timeout.Wait (t : Timeout) (waitErr : WaitErr) (ctxErr : CtxErr) : Outcome :=
  let ev : List Event :=
    if ctxErr = CtxErr.deadlineExceeded then t.escalate waitErr.reaped else []
  if ctxErr = CtxErr.deadlineExceeded ∧ t.preserveStatus = false then ⟨ev, some 124⟩
  else if waitErr = WaitErr.errWaitDelay ∧ t.preserveStatus = false then ⟨ev, some 124⟩
  else
    match waitErr with
    | WaitErr.exitError (WaitStatus.signaled sig) =>
      ⟨ev ++ [Event.selfSignal sig, Event.cancel], none⟩
    | WaitErr.exitError (WaitStatus.exited code) => ⟨ev, some code⟩
    | _ => ⟨ev ++ [Event.cancel], none⟩

/-- The error returned by `cmd.Start()`. -/
inductive StartErr where
  | notFound
  | other
  deriving DecidableEq

/-- What the environment reports during a run of `main`. -/
structure Env where
  startErr : Option StartErr
  waitErr : WaitErr
  ctxErr : CtxErr
  deriving DecidableEq

/-- The function `main` (timeout.go:29-91) after `flag.Parse()`: `timeoutSignal` and
`killDelay` are the values of `-s` and `-k` (defaults "TERM" and "-1"),
`ignoreProcessGroup` and `preserveStatus` those of `-f` and `-p`, and `args`
is `flag.Args()`.  When `main` returns, the process ends with status 0. -/
def main (unicodeUpper : Char → Char) (timeoutSignal killDelay : String)
    (ignoreProcessGroup preserveStatus : Bool) (args : List String) (env : Env) : Outcome :=
  match args with
  | timeoutDuration :: command :: arguments =>
    match ParseTimeout timeoutDuration with
    | (_, some _) => ⟨[], some 125⟩
    | (td, none) =>
      match ParseTimeout killDelay with
      | (_, some _) => ⟨[], some 125⟩
      | (kd, none) =>
        if kd < -1 * Second then ⟨[], some 125⟩
        else
          match ParseSignal unicodeUpper timeoutSignal with
          | (_, some _) => ⟨[], some 125⟩
          | (sig, none) =>
            let t : Timeout :=
              { timeoutDuration := td, timeoutSignal := sig, killDelay := kd,
                ignoreProcessGroup := ignoreProcessGroup, preserveStatus := preserveStatus,
                command := command, arguments := arguments }
            match env.startErr with
            | some StartErr.notFound => ⟨[Event.start t], some 127⟩
            | some StartErr.other => ⟨[Event.start t], some 126⟩
            | none =>
              let w := t.Wait env.waitErr env.ctxErr
              ⟨Event.start t :: w.events, w.exit⟩
  | _ => ⟨[], some 125⟩

/-- The exit status of the process: the argument of `os.Exit`, or 0 when
`main` returned. -/
def Outcome.status (o : Outcome) : Int := o.exit.getD 0

/-- The run calls `t.Start()`. -/
def Outcome.callsStart (o : Outcome) : Prop := ∃ t, Event.start t ∈ o.events

/-- The run sends SIGKILL to the child or to its process group. -/
def sendsKill (events : List Event) : Prop := ∃ target, Event.signal target SIGKILL ∈ events

/-- The run performs a `time.Sleep`. -/
def sleeps (events : List Event) : Prop := ∃ d, Event.sleep d ∈ events

/-! ## Signal registry: proofs -/

/-- The per-rune map of `ToUpper` sends a case variant of an upper-case ASCII
letter, digit or other rune below `a` to that rune. -/
theorem upperRune_of_variant (unicodeUpper : Char → Char) (c k : Char) (hk : k.toNat < 97)
    (h : c = k ∨ (65 ≤ k.toNat ∧ k.toNat ≤ 90 ∧ c = Char.ofNat (k.toNat + 32))) :
    (if c.toNat < 128 then asciiToUpper c else unicodeUpper c) = k := by
  rcases h with rfl | ⟨h1, h2, rfl⟩
  · have h128 : c.toNat < 128 := by omega
    simp only [h128, if_true, asciiToUpper]
    rw [if_neg (by omega)]
  · have hn : (Char.ofNat (k.toNat + 32)).toNat = k.toNat + 32 := by
      have : k.toNat = 65 ∨ k.toNat = 66 ∨ k.toNat = 67 ∨ k.toNat = 68 ∨ k.toNat = 69 ∨
          k.toNat = 70 ∨ k.toNat = 71 ∨ k.toNat = 72 ∨ k.toNat = 73 ∨ k.toNat = 74 ∨
          k.toNat = 75 ∨ k.toNat = 76 ∨ k.toNat = 77 ∨ k.toNat = 78 ∨ k.toNat = 79 ∨
          k.toNat = 80 ∨ k.toNat = 81 ∨ k.toNat = 82 ∨ k.toNat = 83 ∨ k.toNat = 84 ∨
          k.toNat = 85 ∨ k.toNat = 86 ∨ k.toNat = 87 ∨ k.toNat = 88 ∨ k.toNat = 89 ∨
          k.toNat = 90 := by omega
      rcases this with h | h | h | h | h | h | h | h | h | h | h | h | h | h | h | h | h | h |
        h | h | h | h | h | h | h | h <;> rw [h] <;> decide
    have h128 : (Char.ofNat (k.toNat + 32)).toNat < 128 := by omega
    rw [if_pos h128]
    unfold asciiToUpper
    rw [if_pos ⟨by omega, by omega⟩, hn]
    simp

/-- List form of `upperRune_of_variant`. -/
theorem map_upper_of_variant (unicodeUpper : Char → Char) (l kd : List Char)
    (hk : ∀ k ∈ kd, k.toNat < 97)
    (h : List.Forall₂
      (fun c k => c = k ∨ (65 ≤ k.toNat ∧ k.toNat ≤ 90 ∧ c = Char.ofNat (k.toNat + 32))) l kd) :
    l.map (fun c => if c.toNat < 128 then asciiToUpper c else unicodeUpper c) = kd := by
  induction h with
  | nil => rfl
  | cons hck _ ih =>
    rw [List.map_cons, ih (fun k hmem => hk k (List.mem_cons_of_mem _ hmem)),
      upperRune_of_variant unicodeUpper _ _ (hk _ (List.mem_cons_self _ _)) hck]

/-- Every key of `signalMap` consists of runes below `a`. -/
theorem signalMap_keys_upper :
    ∀ p ∈ signalMap, ∀ k ∈ p.1.data, k.toNat < 97 := by
  decide

/-- The keys of `signalMap` are pairwise distinct, so a lookup of a key
returns the signal it is paired with. -/
theorem signalMap_lookup_of_mem :
    ∀ p ∈ signalMap, signalMap.lookup p.1 = some p.2 := by
  decide

/-- Claim C4.  `ParseSignal` looks the upper-cased name up among the 18 keys
of `signalMap`: when the upper-cased name is a key it returns that key's signal
and a nil error, hence every ASCII case variant of a key returns the key's
signal; when it is not a key the error is non-nil (and the value SIGTERM).
The name "SIGTERM" and the empty name fail. -/
theorem ParseSignal_registry (unicodeUpper : Char → Char) (name : String) :
    signalMap.map Prod.fst =
      ["ABRT", "ALRM", "BUS", "CHLD", "CONT", "HUP", "ILL", "INT", "KILL", "PIPE", "QUIT",
       "SEGV", "STOP", "TERM", "TRAP", "TSTP", "USR1", "USR2"] ∧
    (∀ key sig, (key, sig) ∈ signalMap → ToUpper unicodeUpper name = key →
      ParseSignal unicodeUpper name = (sig, none)) ∧
    (∀ key sig, (key, sig) ∈ signalMap → asciiCaseVariant name key →
      ParseSignal unicodeUpper name = (sig, none)) ∧
    (ToUpper unicodeUpper name ∉ signalMap.map Prod.fst →
      ParseSignal unicodeUpper name = (SIGTERM, some (Error.unknownSignal name))) ∧
    (ParseSignal unicodeUpper "SIGTERM").2 ≠ none ∧
    (ParseSignal unicodeUpper "").2 ≠ none := by
  have hhit : ∀ key sig, (key, sig) ∈ signalMap → ToUpper unicodeUpper name = key →
      ParseSignal unicodeUpper name = (sig, none) := by
    intro key sig hmem hup
    have hl := signalMap_lookup_of_mem (key, sig) hmem
    simp only at hl
    simp only [ParseSignal, hup, hl]
  have hsig : ParseSignal unicodeUpper "SIGTERM" =
      (SIGTERM, some (Error.unknownSignal "SIGTERM")) := rfl
  have hempty : ParseSignal unicodeUpper "" = (SIGTERM, some (Error.unknownSignal "")) := rfl
  refine ⟨by decide, hhit, ?_, ?_, by simp [hsig], by simp [hempty]⟩
  · intro key sig hmem hvar
    apply hhit key sig hmem
    have hk := signalMap_keys_upper (key, sig) hmem
    have := map_upper_of_variant unicodeUpper name.data key.data hk hvar
    simp only [ToUpper, this]
  · intro hnot
    have hl : signalMap.lookup (ToUpper unicodeUpper name) = none := by
      rw [List.lookup_eq_none_iff]
      intro p hp
      simp only [bne_iff_ne, ne_eq]
      intro heq
      apply hnot
      rw [heq]
      exact List.mem_map_of_mem _ hp
    simp only [ParseSignal, hl]

/-- Claim C4 at concrete inputs: "term" and "Usr1" are case variants of keys,
and "SIGTERM" upper-cases to a string that is not a key. -/
theorem ParseSignal_registry_witness :
    ParseSignal id "Usr1" = (SIGUSR1, none) ∧
    ParseSignal id "term" = (SIGTERM, none) ∧
    ParseSignal id "SIGTERM" = (SIGTERM, some (Error.unknownSignal "SIGTERM")) :=
  ⟨(ParseSignal_registry id "Usr1").2.1 "USR1" SIGUSR1 (by decide) (by decide),
   (ParseSignal_registry id "term").2.2.1 "TERM" SIGTERM (by decide)
     (by simp [asciiCaseVariant]),
   (ParseSignal_registry id "SIGTERM").2.2.2.1 (by decide)⟩

/-! ## The supervisor: proofs -/

/-- The parser maps the default `-k` string "-1" to minus one second. -/
theorem ParseTimeout_default_killDelay : ParseTimeout "-1" = (-1000000000, none) := by
  decide

/-- The parser accepts "-0.5" as minus half a second. -/
theorem ParseTimeout_neg_half : ParseTimeout "-0.5" = (-500000000, none) := by
  set_option maxRecDepth 100000 in decide

/-- When one of the configuration checks fails, `main` stops with status 125
before it records any event. -/
theorem main_config_error (unicodeUpper : Char → Char) (timeoutSignal killDelay : String)
    (ignoreProcessGroup preserveStatus : Bool) (args : List String) (env : Env)
    (h : args.length < 2 ∨
      (∃ d rest, args = d :: rest ∧ (ParseTimeout d).2 ≠ none) ∨
      (ParseTimeout killDelay).2 ≠ none ∨
      (ParseTimeout killDelay).1 < -1 * Second ∨
      (ParseSignal unicodeUpper timeoutSignal).2 ≠ none) :
    main unicodeUpper timeoutSignal killDelay ignoreProcessGroup preserveStatus args env =
      ⟨[], some 125⟩ := by
  match args with
  | [] => rfl
  | [_] => rfl
  | d :: c :: a =>
    rcases hd : ParseTimeout d with ⟨td, _ | e1⟩
    · rcases hk : ParseTimeout killDelay with ⟨kd, _ | e2⟩
      · by_cases hlt : kd < -1 * Second
        · simp only [main, hd, hk, if_pos hlt]
        · rcases hs : ParseSignal unicodeUpper timeoutSignal with ⟨sig, _ | e3⟩
          · exfalso
            rcases h with h | ⟨d1, r1, heq, h⟩ | h | h | h
            · simp only [List.length_cons] at h
              omega
            · simp only [List.cons.injEq] at heq
              rw [← heq.1, hd] at h
              exact h rfl
            · rw [hk] at h
              exact h rfl
            · rw [hk] at h
              exact hlt h
            · rw [hs] at h
              exact h rfl
          · simp only [main, hd, hk, hs, if_neg hlt]
      · simp only [main, hd, hk]
    · simp only [main, hd]

/-- When every configuration check passes, `main` calls `Start` with the
parsed configuration and continues according to what the environment
reports. -/
theorem main_config_ok (unicodeUpper : Char → Char) (timeoutSignal killDelay : String)
    (ignoreProcessGroup preserveStatus : Bool) (d c : String) (a : List String) (env : Env)
    (td kd : Int) (sig : Signal)
    (hd : ParseTimeout d = (td, none)) (hk : ParseTimeout killDelay = (kd, none))
    (hge : ¬ kd < -1 * Second) (hs : ParseSignal unicodeUpper timeoutSignal = (sig, none)) :
    main unicodeUpper timeoutSignal killDelay ignoreProcessGroup preserveStatus (d :: c :: a) env =
      (match env.startErr with
       | some StartErr.notFound =>
         ⟨[Event.start ⟨td, sig, kd, ignoreProcessGroup, preserveStatus, c, a⟩], some 127⟩
       | some StartErr.other =>
         ⟨[Event.start ⟨td, sig, kd, ignoreProcessGroup, preserveStatus, c, a⟩], some 126⟩
       | none =>
         ⟨Event.start ⟨td, sig, kd, ignoreProcessGroup, preserveStatus, c, a⟩ ::
            (Timeout.Wait ⟨td, sig, kd, ignoreProcessGroup, preserveStatus, c, a⟩
              env.waitErr env.ctxErr).events,
          (Timeout.Wait ⟨td, sig, kd, ignoreProcessGroup, preserveStatus, c, a⟩
              env.waitErr env.ctxErr).exit⟩) := by
  simp only [main, hd, hk, hs, if_neg hge]

/-- The escalation consists of a sleep and of SIGKILL signals to the child or
to its group. -/
theorem escalate_mem (t : Timeout) (reaped : Bool) (ev : Event) (h : ev ∈ t.escalate reaped) :
    ev = Event.sleep t.killDelay ∨ ∃ target, ev = Event.signal target SIGKILL := by
  unfold Timeout.escalate processSignal at h
  by_cases hkd : t.killDelay > -1
  · rw [if_pos hkd] at h
    rcases hi : t.ignoreProcessGroup with _ | _ <;> rcases reaped with _ | _ <;>
      simp [hi] at h
    · rcases h with h | h
      · exact Or.inl h
      · exact Or.inr ⟨_, h⟩
    · rcases h with h | h
      · exact Or.inl h
      · exact Or.inr ⟨_, h⟩
    · rcases h with h | h
      · exact Or.inl h
      · exact Or.inr ⟨_, h⟩
    · exact Or.inl h
  · rw [if_neg hkd] at h
    simp at h

/-- The events of `Wait` are those of the escalation (when the deadline
fired), followed by at most a signal to the supervisor itself and the deferred
cancel. -/
theorem Wait_events (t : Timeout) (waitErr : WaitErr) (ctxErr : CtxErr) :
    ∃ tail, (t.Wait waitErr ctxErr).events =
        (if ctxErr = CtxErr.deadlineExceeded then t.escalate waitErr.reaped else []) ++ tail ∧
      ∀ ev ∈ tail, ev = Event.cancel ∨ ∃ s, ev = Event.selfSignal s := by
  unfold Timeout.Wait
  by_cases h1 : ctxErr = CtxErr.deadlineExceeded ∧ t.preserveStatus = false
  · exact ⟨[], by simp [if_pos h1], by simp⟩
  · by_cases h2 : waitErr = WaitErr.errWaitDelay ∧ t.preserveStatus = false
    · exact ⟨[], by simp [if_neg h1, if_pos h2], by simp⟩
    · rcases waitErr with _ | ⟨c | s⟩ | _ | r
      · exact ⟨[Event.cancel], by simp [if_neg h1], by simp⟩
      · exact ⟨[], by simp [if_neg h1], by simp⟩
      · exact ⟨[Event.selfSignal s, Event.cancel], by simp [if_neg h1], by simp⟩
      · have hp : t.preserveStatus = true := by
          cases hps : t.preserveStatus with
          | true => rfl
          | false => exact absurd ⟨rfl, hps⟩ h2
        exact ⟨[Event.cancel], by simp [hp], by simp⟩
      · exact ⟨[Event.cancel], by simp [if_neg h1], by simp⟩

/-- The method `Wait` itself never records a `Start` event. -/
theorem Wait_events_no_start (t t1 : Timeout) (waitErr : WaitErr) (ctxErr : CtxErr) :
    Event.start t1 ∉ (t.Wait waitErr ctxErr).events := by
  obtain ⟨tail, he, htail⟩ := Wait_events t waitErr ctxErr
  rw [he]
  intro hmem
  rw [List.mem_append] at hmem
  rcases hmem with hmem | hmem
  · by_cases hc : ctxErr = CtxErr.deadlineExceeded
    · rw [if_pos hc] at hmem
      rcases escalate_mem t _ _ hmem with h | ⟨_, h⟩ <;> exact Event.noConfusion h
    · rw [if_neg hc] at hmem
      simp at hmem
  · rcases htail _ hmem with h | ⟨_, h⟩ <;> exact Event.noConfusion h

/-- A run of `main` that records a `Start` event has passed every
configuration check: the configuration carries the parsed `-k` value, which is
not below minus one second, and the flags `-f` and `-p`; the run continues
according to what the environment reports. -/
theorem main_run_of_start (unicodeUpper : Char → Char) (timeoutSignal killDelay : String)
    (ignoreProcessGroup preserveStatus : Bool) (args : List String) (env : Env) (t : Timeout)
    (hstart : Event.start t ∈
      (main unicodeUpper timeoutSignal killDelay ignoreProcessGroup preserveStatus args env).events) :
    ParseTimeout killDelay = (t.killDelay, none) ∧ -1 * Second ≤ t.killDelay ∧
    t.ignoreProcessGroup = ignoreProcessGroup ∧ t.preserveStatus = preserveStatus ∧
    main unicodeUpper timeoutSignal killDelay ignoreProcessGroup preserveStatus args env =
      (match env.startErr with
       | some StartErr.notFound => ⟨[Event.start t], some 127⟩
       | some StartErr.other => ⟨[Event.start t], some 126⟩
       | none =>
         ⟨Event.start t :: (t.Wait env.waitErr env.ctxErr).events,
          (t.Wait env.waitErr env.ctxErr).exit⟩) := by
  by_cases herr : args.length < 2 ∨
      (∃ d rest, args = d :: rest ∧ (ParseTimeout d).2 ≠ none) ∨
      (ParseTimeout killDelay).2 ≠ none ∨
      (ParseTimeout killDelay).1 < -1 * Second ∨
      (ParseSignal unicodeUpper timeoutSignal).2 ≠ none
  · rw [main_config_error _ _ _ _ _ _ _ herr] at hstart
    simp at hstart
  · simp only [not_or, not_lt, ne_eq, not_not, not_exists, not_and] at herr
    obtain ⟨hlen, hd, hk, hge, hs⟩ := herr
    match args, hlen, hd with
    | d :: c :: a, _, hd =>
      have hd1 := hd d (c :: a) rfl
      have e1 : ParseTimeout d = ((ParseTimeout d).1, none) := by rw [← hd1]
      have e2 : ParseTimeout killDelay = ((ParseTimeout killDelay).1, none) := by rw [← hk]
      have e3 : ParseSignal unicodeUpper timeoutSignal =
          ((ParseSignal unicodeUpper timeoutSignal).1, none) := by rw [← hs]
      have hm := main_config_ok unicodeUpper timeoutSignal killDelay ignoreProcessGroup
        preserveStatus d c a env _ _ _ e1 e2 (not_lt.mpr hge) e3
      rw [hm] at hstart
      have key : Event.start t = Event.start ⟨(ParseTimeout d).1,
          (ParseSignal unicodeUpper timeoutSignal).1, (ParseTimeout killDelay).1,
          ignoreProcessGroup, preserveStatus, c, a⟩ := by
        rcases hse : env.startErr with _ | _ | _ <;> rw [hse] at hstart <;>
          simp only [List.mem_cons, List.mem_singleton, List.not_mem_nil, or_false] at hstart
        · rcases hstart with h | h
          · exact h
          · exact absurd h (Wait_events_no_start _ _ _ _)
        · exact hstart
        · exact hstart
      have ht : t = ⟨(ParseTimeout d).1,
          (ParseSignal unicodeUpper timeoutSignal).1, (ParseTimeout killDelay).1,
          ignoreProcessGroup, preserveStatus, c, a⟩ := by
        injection key
      subst ht
      exact ⟨e2, hge, rfl, rfl, hm⟩

/-! ## The duration parser: proofs -/

/-- A digit byte has a code between 48 and 57. -/
theorem isDigit_iff (c : Char) : isDigit c = true ↔ 48 ≤ c.toNat ∧ c.toNat ≤ 57 := by
  simp [isDigit]

/-- A digit differs from every character whose code is not a digit code. -/
theorem ne_of_isDigit (c k : Char) (hc : isDigit c = true) (hk : k.toNat < 48 ∨ 57 < k.toNat) :
    c ≠ k := by
  rw [isDigit_iff] at hc
  rintro rfl
  omega

/-- Setting bit 5 of a digit code leaves it unchanged. -/
theorem lower_of_isDigit (c : Char) (hc : isDigit c = true) : lower c = c.toNat := by
  rw [isDigit_iff] at hc
  have : c.toNat = 48 ∨ c.toNat = 49 ∨ c.toNat = 50 ∨ c.toNat = 51 ∨ c.toNat = 52 ∨
      c.toNat = 53 ∨ c.toNat = 54 ∨ c.toNat = 55 ∨ c.toNat = 56 ∨ c.toNat = 57 := by omega
  unfold lower
  rcases this with h | h | h | h | h | h | h | h | h | h <;> rw [h] <;> rfl

/-- Folding the digits from an accumulator never decreases it. -/
theorem le_foldl_digits (N : List Char) (x : Nat) :
    x ≤ N.foldl (fun a c => a * 10 + digitVal c) x := by
  induction N generalizing x with
  | nil => exact Nat.le_refl _
  | cons c cs ih =>
    simp only [List.foldl_cons]
    have := ih (x * 10 + digitVal c)
    omega

/-- A string of digits starts with neither an infinity nor a NaN. -/
theorem special_digits (c : Char) (cs : List Char) (hc : isDigit c = true) :
    special (c :: cs) = none := by
  have h1 := ne_of_isDigit c '+' hc (Or.inl (by decide))
  have h2 := ne_of_isDigit c '-' hc (Or.inl (by decide))
  have h3 := ne_of_isDigit c 'i' hc (Or.inr (by decide))
  have h4 := ne_of_isDigit c 'I' hc (Or.inr (by decide))
  have h5 := ne_of_isDigit c 'n' hc (Or.inr (by decide))
  have h6 := ne_of_isDigit c 'N' hc (Or.inr (by decide))
  simp only [special, h1, h2, h3, h4, h5, h6, or_self, if_false]

/-- The mantissa scan of `readFloat` on a string of digits, with no decimal
point seen so far: it consumes the whole string, accumulates its decimal value
and sets no flag other than `sawdigits`. -/
theorem scanMantissa_digits (N : List Char) (hd : ∀ c ∈ N, isDigit c = true) (st : Scan)
    (hdot : st.sawdot = false) (hz : st.nd = 0 → st.mantissa = 0) :
    ∃ st1, scanMantissa false N st = (st1, []) ∧ st1.sawdot = false ∧
      st1.underscores = st.underscores ∧
      st1.mantissa = N.foldl (fun a c => a * 10 + digitVal c) st.mantissa ∧
      (st.sawdigits = true ∨ N ≠ [] → st1.sawdigits = true) := by
  induction N generalizing st with
  | nil =>
    refine ⟨st, rfl, hdot, rfl, rfl, ?_⟩
    rintro (h | h)
    · exact h
    · exact absurd rfl h
  | cons c cs ih =>
    have hc : isDigit c = true := hd c (List.mem_cons_self _ _)
    have hcs : ∀ c ∈ cs, isDigit c = true := fun x hx => hd x (List.mem_cons_of_mem _ hx)
    have h1 := ne_of_isDigit c '_' hc (Or.inr (by decide))
    have h2 := ne_of_isDigit c '.' hc (Or.inl (by decide))
    by_cases hlead : c = '0' ∧ st.nd = 0
    · obtain ⟨st1, e, a1, a2, a3, a4⟩ :=
        ih hcs { st with sawdigits := true, dp := st.dp - 1 } hdot hz
      refine ⟨st1, ?_, a1, a2, ?_, fun _ => a4 (Or.inl rfl)⟩
      · rw [← e]
        simp only [scanMantissa, h1, h2, hc, if_false, if_true, if_pos hlead]
      · rw [a3]
        simp only [List.foldl_cons]
        have h0 : digitVal c = 0 := by rw [hlead.1]; rfl
        rw [hz hlead.2, h0]
    · obtain ⟨st1, e, a1, a2, a3, a4⟩ :=
        ih hcs { st with sawdigits := true, nd := st.nd + 1,
                         mantissa := st.mantissa * 10 + digitVal c } hdot
          (fun h => absurd h (Nat.succ_ne_zero _))
      refine ⟨st1, ?_, a1, a2, ?_, fun _ => a4 (Or.inl rfl)⟩
      · rw [← e]
        simp only [scanMantissa, h1, h2, hc, if_false, if_true, if_neg hlead]
        rfl
      · rw [a3]
        simp only [List.foldl_cons]

/-- The float parser `strconv.ParseFloat` accepts every non-empty string of decimal digits
whose value is below the float64 overflow threshold. -/
theorem ParseFloat_digits (N : List Char) (hne : N ≠ []) (hd : ∀ c ∈ N, isDigit c = true)
    (hv : decimalValue N < float64Overflow) : ParseFloat N = true := by
  match N, hne, hd with
  | c :: cs, _, hd =>
    have hc : isDigit c = true := hd c (List.mem_cons_self _ _)
    have h1 := ne_of_isDigit c '+' hc (Or.inl (by decide))
    have h2 := ne_of_isDigit c '-' hc (Or.inl (by decide))
    obtain ⟨st1, e, a1, a2, a3, a4⟩ :=
      scanMantissa_digits (c :: cs) hd ⟨false, false, 0, 0, 0, false⟩ rfl (fun _ => rfl)
    have hhex : (match (c :: cs : List Char) with
        | c0 :: c1 :: _ :: _ => decide (c0 = '0' ∧ lower c1 = 120)
        | _ => false) = false := by
      match cs, hd with
      | [], _ => rfl
      | [_], _ => rfl
      | c1 :: _ :: _, hd =>
        have hc1 : isDigit c1 = true := hd c1 (by simp)
        have hl := lower_of_isDigit c1 hc1
        rw [isDigit_iff] at hc1
        simp only [decide_eq_false_iff_not, not_and]
        intro _
        omega
    have hrf : readFloat (c :: cs) = some ⟨10, decimalValue (c :: cs), 0, false, []⟩ := by
      have a5 := a4 (Or.inr (List.cons_ne_nil _ _))
      simp only at a2 a3
      simp only [readFloat, h1, h2, or_self, if_false, hhex, Bool.false_eq_true, if_false, e,
        a1, a2, a3, a5]
      simp [decimalValue]
    unfold ParseFloat
    rw [special_digits c cs hc, hrf]
    simp only [List.isEmpty_nil, Bool.true_and, rangeError]
    simp
    exact hv

/-- The `leadingInt` scan on digits followed by a rest that does not start
with a digit: when the value stays within `2^63`, it returns the value and the
rest. -/
theorem leadingInt_digits (N rest : List Char) (hd : ∀ c ∈ N, isDigit c = true)
    (hrest : ∀ c ∈ rest.head?, isDigit c = false) (x : Nat)
    (hv : N.foldl (fun a c => a * 10 + digitVal c) x ≤ 2 ^ 63) :
    leadingInt (N ++ rest) x = some (N.foldl (fun a c => a * 10 + digitVal c) x, rest) := by
  induction N generalizing x with
  | nil =>
    match rest, hrest with
    | [], _ => rfl
    | r :: rs, hrest =>
      have hr : isDigit r = false := hrest r rfl
      simp [leadingInt, hr]
  | cons c cs ih =>
    have hc : isDigit c = true := hd c (List.mem_cons_self _ _)
    have hcs : ∀ c ∈ cs, isDigit c = true := fun y hy => hd y (List.mem_cons_of_mem _ hy)
    simp only [List.foldl_cons] at hv
    have hmono := le_foldl_digits cs (x * 10 + digitVal c)
    have hx1 : ¬ x > 2 ^ 63 / 10 := by
      have : x * 10 ≤ 2 ^ 63 := by omega
      have := (Nat.le_div_iff_mul_le (by decide : 0 < 10)).mpr this
      omega
    have hx2 : ¬ x * 10 + digitVal c > 2 ^ 63 := by omega
    simp only [List.cons_append, leadingInt, hc, if_true, if_neg hx1, if_neg hx2,
      List.foldl_cons]
    exact ih hcs _ hv

/-- One component of `ParseDuration`: digits followed by a single unit
character, at the end of the input. -/
theorem parseComponent_digits_unit (N : List Char) (u : Char) (unit : Nat)
    (hne : N ≠ []) (hd : ∀ c ∈ N, isDigit c = true)
    (hu : (u = 's' ∧ unit = 1000000000) ∨ (u = 'm' ∧ unit = 60000000000) ∨
      (u = 'h' ∧ unit = 3600000000000))
    (hfit : decimalValue N * unit ≤ 2 ^ 63 - 1) :
    parseComponent (N ++ [u]) 0 = some (decimalValue N * unit, []) := by
  have hupos : 0 < unit := by rcases hu with ⟨_, h⟩ | ⟨_, h⟩ | ⟨_, h⟩ <;> omega
  have hund : isDigit u = false := by
    rcases hu with ⟨h, _⟩ | ⟨h, _⟩ | ⟨h, _⟩ <;> rw [h] <;> rfl
  have hudot : u ≠ '.' := by
    rcases hu with ⟨h, _⟩ | ⟨h, _⟩ | ⟨h, _⟩ <;> rw [h] <;> decide
  have hlook : unitMap.lookup [u] = some unit := by
    rcases hu with ⟨h, h1⟩ | ⟨h, h1⟩ | ⟨h, h1⟩ <;> rw [h, h1] <;> rfl
  have hval : decimalValue N ≤ 2 ^ 63 := by
    have : decimalValue N * 1 ≤ decimalValue N * unit := Nat.mul_le_mul_left _ hupos
    omega
  have hli := leadingInt_digits N [u] hd (by simp [hund]) 0 hval
  have hspan : spanUnit [u] = ([u], []) := by
    simp [spanUnit, hudot, hund]
  have hv1 : ¬ decimalValue N > 2 ^ 63 / unit := by
    have : decimalValue N * unit ≤ 2 ^ 63 := by omega
    have := (Nat.le_div_iff_mul_le hupos).mpr this
    omega
  have hmod : (0 + decimalValue N * unit) % 2 ^ 64 = decimalValue N * unit := by
    rw [Nat.zero_add]
    apply Nat.mod_eq_of_lt
    omega
  have hd1 : ¬ decimalValue N * unit > 2 ^ 63 := by omega
  have hli1 : leadingInt (N ++ [u]) 0 = some (decimalValue N, [u]) := hli
  generalize decimalValue N = n at hv1 hmod hd1 hli1 ⊢
  match N, hne, hd, hli1 with
  | c :: cs, _, hd, hli1 =>
    have hc : isDigit c = true := hd c (List.mem_cons_self _ _)
    simp only [List.cons_append] at hli1 ⊢
    simp only [parseComponent, hc, or_true, not_true_eq_false, if_false, hli1]
    simp only [hudot, if_false, hspan, hlook]
    have hpre : ¬ (decide ((c :: (cs ++ [u])).length ≠ [u].length) = false ∧ True) := by
      simp
    have h00 : ¬ (0 : Nat) > 0 := by decide
    rw [if_neg hpre, if_neg (List.cons_ne_nil _ _), if_neg hv1]
    simp only [if_neg h00, hmod, if_neg hd1]
    rw [if_neg (fun h => h00 h.1)]

/-- The result of `time.ParseDuration` on digits followed by one of the units `s`, `m`,
`h`: the value times the length of the unit, when that fits in an int64. -/
theorem ParseDuration_digits_unit (N : List Char) (u : Char) (unit : Nat)
    (hne : N ≠ []) (hd : ∀ c ∈ N, isDigit c = true)
    (hu : (u = 's' ∧ unit = 1000000000) ∨ (u = 'm' ∧ unit = 60000000000) ∨
      (u = 'h' ∧ unit = 3600000000000))
    (hfit : decimalValue N * unit ≤ 2 ^ 63 - 1) :
    ParseDuration (N ++ [u]) = some ((decimalValue N * unit : Nat) : Int) := by
  have hpc := parseComponent_digits_unit N u unit hne hd hu hfit
  have hund : isDigit u = false := by
    rcases hu with ⟨h, _⟩ | ⟨h, _⟩ | ⟨h, _⟩ <;> rw [h] <;> rfl
  match N, hne, hd, hpc with
  | c :: cs, _, hd, hpc =>
    have hc : isDigit c = true := hd c (List.mem_cons_self _ _)
    have h1 := ne_of_isDigit c '+' hc (Or.inl (by decide))
    have h2 := ne_of_isDigit c '-' hc (Or.inl (by decide))
    have hnz : (c :: cs ++ [u]) ≠ ['0'] := by
      intro h
      have hl := congrArg List.length h
      simp only [List.cons_append, List.length_cons, List.length_append, List.length_nil,
        List.length_singleton] at hl
      have hcs : cs = [] := List.length_eq_zero.mp (by omega)
      subst hcs
      simp only [List.cons_append, List.nil_append] at h
      omega
    have hloop : parseLoop (c :: (cs ++ [u])).length (c :: (cs ++ [u])) 0 =
        some (decimalValue (c :: cs) * unit) := by
      simp only [List.cons_append] at hpc
      simp only [List.length_cons, parseLoop, hpc]
    have hle : ¬ decimalValue (c :: cs) * unit > 2 ^ 63 - 1 := by omega
    simp only [List.cons_append] at hnz ⊢
    simp only [ParseDuration, h1, h2, or_self, if_false, if_neg hnz, hloop,
      decide_eq_false h2, Bool.false_eq_true, if_neg hle]
    simp

/-- The test `strings.Contains("smhd", string(c))` for a single byte `c`. -/
theorem stringsContains_single (c : Char) :
    stringsContains ['s', 'm', 'h', 'd'] [c] =
      decide (c = 's' ∨ c = 'm' ∨ c = 'h' ∨ c = 'd') := by
  rw [Bool.eq_iff_iff]
  simp [stringsContains, List.tails, List.isPrefixOf]

/-- Every int64 nanosecond count is far below the float64 overflow
threshold. -/
theorem int64_lt_float64Overflow : 2 ^ 63 < float64Overflow := by
  decide

/-- The result of `ParseTimeout` on digits followed by one of the unit characters `s`, `m`,
`h`. -/
theorem ParseTimeout_digits_suffix (N : List Char) (u : Char) (unit : Nat)
    (hne : N ≠ []) (hd : ∀ c ∈ N, isDigit c = true)
    (hu : (u = 's' ∧ unit = 1000000000) ∨ (u = 'm' ∧ unit = 60000000000) ∨
      (u = 'h' ∧ unit = 3600000000000))
    (hfit : decimalValue N * unit ≤ 2 ^ 63 - 1) :
    ParseTimeout (String.mk (N ++ [u])) = (((decimalValue N * unit : Nat) : Int), none) := by
  have hupos : 0 < unit := by rcases hu with ⟨_, h⟩ | ⟨_, h⟩ | ⟨_, h⟩ <;> omega
  have hval : decimalValue N < float64Overflow := by
    have h1 : decimalValue N * 1 ≤ decimalValue N * unit := Nat.mul_le_mul_left _ hupos
    have h2 := int64_lt_float64Overflow
    omega
  have hpf := ParseFloat_digits N hne hd hval
  have hpd := ParseDuration_digits_unit N u unit hne hd hu hfit
  have hcont : stringsContains ['s', 'm', 'h', 'd'] [u] = true := by
    rw [stringsContains_single]
    rcases hu with ⟨h, _⟩ | ⟨h, _⟩ | ⟨h, _⟩ <;> rw [h] <;> decide
  have hnn : N ++ [u] ≠ [] := by simp
  have hlast : (N ++ [u]).getLast? = some u := by simp
  simp only [ParseTimeout, hlast, hcont, hnn, ne_eq, not_false_eq_true, and_self, if_true,
    List.dropLast_concat, hpf, Bool.true_eq_false, Bool.false_eq_true, if_false, hpd]

/-- The result of `ParseTimeout` on digits without a unit: the value in seconds. -/
theorem ParseTimeout_digits_plain (N : List Char)
    (hne : N ≠ []) (hd : ∀ c ∈ N, isDigit c = true)
    (hfit : decimalValue N * 1000000000 ≤ 2 ^ 63 - 1) :
    ParseTimeout (String.mk N) = (((decimalValue N * 1000000000 : Nat) : Int), none) := by
  have hval : decimalValue N < float64Overflow := by
    have h2 := int64_lt_float64Overflow
    omega
  have hpf := ParseFloat_digits N hne hd hval
  have hpd := ParseDuration_digits_unit N 's' 1000000000 hne hd (Or.inl ⟨rfl, rfl⟩) hfit
  obtain ⟨c, hlast⟩ : ∃ c, N.getLast? = some c := by
    cases h : N.getLast? with
    | none => exact absurd (List.getLast?_eq_none_iff.mp h) hne
    | some c => exact ⟨c, rfl⟩
  have hcd : isDigit c = true := hd c (List.mem_of_getLast?_eq_some hlast)
  have hcont : stringsContains ['s', 'm', 'h', 'd'] [c] = false := by
    rw [stringsContains_single]
    have h1 := ne_of_isDigit c 's' hcd (Or.inr (by decide))
    have h2 := ne_of_isDigit c 'm' hcd (Or.inr (by decide))
    have h3 := ne_of_isDigit c 'h' hcd (Or.inr (by decide))
    have h4 := ne_of_isDigit c 'd' hcd (Or.inr (by decide))
    simp [h1, h2, h3, h4]
  simp only [ParseTimeout, hlast, hcont, Bool.false_eq_true, and_false, if_false, hpf,
    Bool.true_eq_false, if_true, hpd]

/-- The `leadingInt` scan on digits followed by a rest that does not start
with a digit either overflows or stops exactly at the rest. -/
theorem leadingInt_digits_cases (N rest : List Char) (hd : ∀ c ∈ N, isDigit c = true)
    (hrest : ∀ c ∈ rest.head?, isDigit c = false) (x : Nat) :
    leadingInt (N ++ rest) x = none ∨ ∃ v, leadingInt (N ++ rest) x = some (v, rest) := by
  induction N generalizing x with
  | nil =>
    match rest, hrest with
    | [], _ => exact Or.inr ⟨x, rfl⟩
    | r :: rs, hrest =>
      have hr : isDigit r = false := hrest r rfl
      exact Or.inr ⟨x, by simp [leadingInt, hr]⟩
  | cons c cs ih =>
    have hc : isDigit c = true := hd c (List.mem_cons_self _ _)
    have hcs : ∀ c ∈ cs, isDigit c = true := fun y hy => hd y (List.mem_cons_of_mem _ hy)
    simp only [List.cons_append, leadingInt, hc, if_true]
    by_cases h1 : x > 2 ^ 63 / 10
    · exact Or.inl (by rw [if_pos h1])
    · rw [if_neg h1]
      by_cases h2 : x * 10 + digitVal c > 2 ^ 63
      · exact Or.inl (by simp only [if_pos h2])
      · simp only [if_neg h2]
        exact ih hcs _

/-- The parser `time.ParseDuration` rejects digits followed by the character `d`: no
unit of `unitMap` is called "d". -/
theorem ParseDuration_digits_day (N : List Char) (hne : N ≠ [])
    (hd : ∀ c ∈ N, isDigit c = true) : ParseDuration (N ++ ['d']) = none := by
  match N, hne, hd with
  | c :: cs, _, hd =>
    have hc : isDigit c = true := hd c (List.mem_cons_self _ _)
    have h1 := ne_of_isDigit c '+' hc (Or.inl (by decide))
    have h2 := ne_of_isDigit c '-' hc (Or.inl (by decide))
    have hnz : (c :: (cs ++ ['d'])) ≠ ['0'] := by
      intro h
      have hl := congrArg List.length h
      simp at hl
    have hpc : parseComponent (c :: (cs ++ ['d'])) 0 = none := by
      have hli := leadingInt_digits_cases (c :: cs) ['d'] hd (by simp [isDigit]) 0
      simp only [List.cons_append] at hli
      rcases hli with hli | ⟨v, hli⟩
      · simp only [parseComponent, hc, or_true, not_true_eq_false, if_false, hli]
      · have hspan : spanUnit ['d'] = (['d'], []) := by decide
        have hlook : unitMap.lookup ['d'] = none := by decide
        have hdot : ('d' : Char) ≠ '.' := by decide
        simp only [parseComponent, hc, or_true, not_true_eq_false, if_false, hli, hdot, hspan,
          hlook]
        simp
    have hloop : parseLoop (c :: (cs ++ ['d'])).length (c :: (cs ++ ['d'])) 0 = none := by
      simp only [List.length_cons, parseLoop, hpc]
    simp only [List.cons_append, ParseDuration, h1, h2, or_self, if_false, if_neg hnz, hloop]
    simp

/-- The parser `time.ParseDuration` rejects every string without a decimal digit. -/
theorem ParseDuration_no_digit (s : List Char) (hs : ∀ c ∈ s, isDigit c = false) :
    ParseDuration s = none := by
  have key : ∀ t : List Char, (∀ c ∈ t, isDigit c = false) → t ≠ [] →
      parseLoop t.length t 0 = none := by
    intro t ht hne
    match t, ht, hne with
    | c :: cs, ht, _ =>
      have hc : isDigit c = false := ht c (List.mem_cons_self _ _)
      have hpc : parseComponent (c :: cs) 0 = none := by
        by_cases hdot : c = '.'
        · subst hdot
          have hfr : leadingFraction cs 0 ⟨1, 1⟩ false = (0, ⟨1, 1⟩, cs) := by
            match cs, ht with
            | [], _ => rfl
            | c2 :: cs2, ht =>
              have hc2 : isDigit c2 = false := ht c2 (by simp)
              simp [leadingFraction, hc2]
          simp only [parseComponent, leadingInt, hc, Bool.false_eq_true, if_false, hfr]
          simp
        · simp [parseComponent, hdot, hc]
      simp only [List.length_cons, parseLoop, hpc]
  have h0 : ∀ t : List Char, (∀ c ∈ t, isDigit c = false) → t ≠ ['0'] := by
    intro t ht h
    have := ht '0' (by rw [h]; simp)
    exact absurd this (by decide)
  match s, hs with
  | [], _ => rfl
  | c :: cs, hs =>
    by_cases hsign : c = '-' ∨ c = '+'
    · have hcs : ∀ x ∈ cs, isDigit x = false := fun x hx => hs x (List.mem_cons_of_mem _ hx)
      simp only [ParseDuration, if_pos hsign, if_neg (h0 cs hcs)]
      by_cases hnil : cs = []
      · simp [hnil]
      · simp [hnil, key cs hcs hnil]
    · have hk := key (c :: cs) hs (List.cons_ne_nil _ _)
      simp only [ParseDuration, if_neg hsign, if_neg (h0 (c :: cs) hs), hk]
      simp

/-- The argument that `ParseTimeout` passes to `strconv.ParseFloat` is the
input with at most one trailing unit character removed. -/
theorem fstr_eq_stripUnit (s : List Char) :
    (if s ≠ [] ∧ stringsContains ['s', 'm', 'h', 'd']
        (match s.getLast? with
         | some c => [c]
         | none => []) = true
      then s.dropLast else s) = stripUnit s := by
  unfold stripUnit
  cases h : s.getLast? with
  | none =>
    have hs : s = [] := List.getLast?_eq_none_iff.mp h
    simp [hs]
  | some c =>
    have hs : s ≠ [] := by
      intro h0
      rw [h0] at h
      simp at h
    simp only [stringsContains_single, hs, ne_eq, not_false_eq_true, true_and,
      decide_eq_true_eq]

/-- When `strconv.ParseFloat` rejects the stripped input, `ParseTimeout`
returns the zero duration and the error of timeout.go:181. -/
theorem ParseTimeout_of_ParseFloat_false (input : String)
    (h : ParseFloat (stripUnit input.data) = false) :
    ParseTimeout input = (0, some (Error.cannotParseDuration input)) := by
  unfold ParseTimeout
  simp only [fstr_eq_stripUnit, h, if_true]

/-- An input without a decimal digit makes `ParseTimeout` return the zero
duration and an error. -/
theorem ParseTimeout_no_digit (input : String) (h : ∀ c ∈ input.data, isDigit c = false) :
    (ParseTimeout input).1 = 0 ∧ (ParseTimeout input).2 ≠ none := by
  by_cases hpf : ParseFloat (stripUnit input.data) = false
  · rw [ParseTimeout_of_ParseFloat_false input hpf]
    simp
  · have hs : ∀ c ∈ input.data ++ ['s'], isDigit c = false := by
      intro c hc
      rw [List.mem_append] at hc
      rcases hc with hc | hc
      · exact h c hc
      · simp only [List.mem_singleton] at hc
        rw [hc]
        rfl
    have h1 := ParseDuration_no_digit input.data h
    have h2 := ParseDuration_no_digit (input.data ++ ['s']) hs
    unfold ParseTimeout
    simp only [fstr_eq_stripUnit, hpf, if_false]
    cases hb : stringsContains ['s', 'm', 'h', 'd']
      (match input.data.getLast? with
       | some c => [c]
       | none => []) <;> simp [h1, h2]

/-- Claim C3.  `ParseTimeout` returns the zero duration and a non-nil error
for every input without a decimal digit, in particular for the empty string,
for a bare unit character and for "abc" and "abcs"; and it returns that error
whenever the input with at most one trailing character of "smhd" removed is
rejected by `strconv.ParseFloat`, as for "5x" and "1h30m". -/
theorem ParseTimeout_rejects_malformed (input : String) :
    ((∀ c ∈ input.data, isDigit c = false) →
      (ParseTimeout input).1 = 0 ∧ (ParseTimeout input).2 ≠ none) ∧
    (ParseFloat (stripUnit input.data) = false →
      ParseTimeout input = (0, some (Error.cannotParseDuration input))) ∧
    ParseTimeout "" = (0, some (Error.cannotParseDuration "")) ∧
    ParseTimeout "s" = (0, some (Error.cannotParseDuration "s")) ∧
    ParseTimeout "m" = (0, some (Error.cannotParseDuration "m")) ∧
    ParseTimeout "h" = (0, some (Error.cannotParseDuration "h")) ∧
    ParseTimeout "d" = (0, some (Error.cannotParseDuration "d")) ∧
    ParseTimeout "abc" = (0, some (Error.cannotParseDuration "abc")) ∧
    ParseTimeout "abcs" = (0, some (Error.cannotParseDuration "abcs")) ∧
    ParseFloat (stripUnit "5x".data) = false ∧
    ParseTimeout "5x" = (0, some (Error.cannotParseDuration "5x")) ∧
    ParseFloat (stripUnit "1h30m".data) = false ∧
    ParseTimeout "1h30m" = (0, some (Error.cannotParseDuration "1h30m")) :=
  ⟨ParseTimeout_no_digit input, ParseTimeout_of_ParseFloat_false input,
   by decide, by decide, by decide, by decide, by decide, by decide, by decide,
   by decide, by decide, by decide, by decide⟩

/-- Claim C3 at concrete inputs: "inf" has no digit (the float parser accepts
it, the duration parser does not), and "1e" is not a float literal. -/
theorem ParseTimeout_rejects_malformed_witness :
    (∀ c ∈ "inf".data, isDigit c = false) ∧
    ((ParseTimeout "inf").1 = 0 ∧ (ParseTimeout "inf").2 ≠ none) ∧
    ParseFloat (stripUnit "1e".data) = false ∧
    ParseTimeout "1e" = (0, some (Error.cannotParseDuration "1e")) :=
  ⟨by decide, (ParseTimeout_rejects_malformed "inf").1 (by decide), by decide,
   (ParseTimeout_rejects_malformed "1e").2.1 (by decide)⟩

/-- Claim C1.  For a non-empty string `N` of decimal digits and a unit suffix
`u` among none, "s", "m", "h" of length `L` = 1, 1, 60, 3600 seconds, such
that the value of `N` times `L` seconds fits in an int64 count of nanoseconds,
`ParseTimeout (N ++ u)` returns a nil error and exactly that duration; and the
unit-less input parses like the input with the suffix "s". -/
theorem ParseTimeout_digits_exact (N u : List Char) (L : Nat)
    (hne : N ≠ []) (hd : ∀ c ∈ N, isDigit c = true)
    (hu : (u = [] ∧ L = 1) ∨ (u = ['s'] ∧ L = 1) ∨ (u = ['m'] ∧ L = 60) ∨
      (u = ['h'] ∧ L = 3600))
    (hfit : decimalValue N * L * 1000000000 ≤ 2 ^ 63 - 1) :
    ParseTimeout (String.mk (N ++ u)) =
      (((decimalValue N * L * 1000000000 : Nat) : Int), none) ∧
    ParseTimeout (String.mk N) = ParseTimeout (String.mk (N ++ ['s'])) := by
  have hsec : decimalValue N * 1000000000 ≤ 2 ^ 63 - 1 := by
    have hL : 1 ≤ L := by rcases hu with ⟨_, h⟩ | ⟨_, h⟩ | ⟨_, h⟩ | ⟨_, h⟩ <;> omega
    have : decimalValue N * 1 ≤ decimalValue N * L := Nat.mul_le_mul_left _ hL
    have := Nat.mul_le_mul_right 1000000000 this
    omega
  have hplain := ParseTimeout_digits_plain N hne hd hsec
  have hs := ParseTimeout_digits_suffix N 's' 1000000000 hne hd (Or.inl ⟨rfl, rfl⟩) hsec
  refine ⟨?_, by rw [hplain, hs]⟩
  rcases hu with ⟨h1, h2⟩ | ⟨h1, h2⟩ | ⟨h1, h2⟩ | ⟨h1, h2⟩
  · subst h1 h2
    rw [List.append_nil, hplain, Nat.mul_one]
  · subst h1 h2
    rw [hs, Nat.mul_one]
  · subst h1 h2
    have e : decimalValue N * 60 * 1000000000 = decimalValue N * 60000000000 := by
      rw [Nat.mul_assoc]
    rw [e] at hfit ⊢
    exact ParseTimeout_digits_suffix N 'm' 60000000000 hne hd (Or.inr (Or.inl ⟨rfl, rfl⟩)) hfit
  · subst h1 h2
    have e : decimalValue N * 3600 * 1000000000 = decimalValue N * 3600000000000 := by
      rw [Nat.mul_assoc]
    rw [e] at hfit ⊢
    exact ParseTimeout_digits_suffix N 'h' 3600000000000 hne hd (Or.inr (Or.inr ⟨rfl, rfl⟩)) hfit

/-- Claim C1 at a concrete input: "007m" is seven minutes. -/
theorem ParseTimeout_digits_exact_witness :
    (['0', '0', '7'] : List Char) ≠ [] ∧
    (∀ c ∈ (['0', '0', '7'] : List Char), isDigit c = true) ∧
    decimalValue ['0', '0', '7'] * 60 * 1000000000 ≤ 2 ^ 63 - 1 ∧
    ParseTimeout "007m" = (420000000000, none) ∧
    ParseTimeout "007" = ParseTimeout "007s" :=
  ⟨by decide, by decide, by decide,
   ParseTimeout_digits_exact ['0', '0', '7'] ['m'] 60 (by decide) (by decide)
     (Or.inr (Or.inr (Or.inl ⟨rfl, rfl⟩))) (by decide)⟩

/-- Claim C2 fails on the code: `ParseTimeout "1d"` returns the zero duration
and an error instead of 24 hours, and so does every string of decimal digits
followed by "d". -/
theorem ParseTimeout_day_suffix_fails :
    ParseTimeout "1d" = (0, some (Error.cannotParseDuration "1d")) ∧
    ParseTimeout "1d" ≠ (86400000000000, none) ∧
    ∀ N : List Char, N ≠ [] → (∀ c ∈ N, isDigit c = true) →
      (ParseTimeout (String.mk (N ++ ['d']))).1 = 0 ∧
      (ParseTimeout (String.mk (N ++ ['d']))).2 ≠ none := by
  refine ⟨by decide, by decide, ?_⟩
  intro N hne hd
  have hpd := ParseDuration_digits_day N hne hd
  have hcont : stringsContains ['s', 'm', 'h', 'd'] ['d'] = true := by decide
  have hlast : (N ++ ['d']).getLast? = some 'd' := by simp
  unfold ParseTimeout
  simp only [hlast, hcont, Bool.true_eq_false, if_false, hpd]
  split <;> simp

/-- Claim C2 at a concrete input: "30d" is rejected. -/
theorem ParseTimeout_day_suffix_fails_witness :
    (['3', '0'] : List Char) ≠ [] ∧ (∀ c ∈ (['3', '0'] : List Char), isDigit c = true) ∧
    (ParseTimeout "30d").1 = 0 ∧ (ParseTimeout "30d").2 ≠ none :=
  ⟨by decide, by decide, ParseTimeout_day_suffix_fails.2.2 ['3', '0'] (by decide) (by decide)⟩

/-- Claim C9.  If fewer than two operands are given, or `ParseTimeout` fails
on the duration operand or on the `-k` value, or `ParseSignal` fails on the
`-s` value, then `main` exits with status 125 and `Start` is never called. -/
theorem main_usage_error_exits_125 (unicodeUpper : Char → Char)
    (timeoutSignal killDelay : String) (ignoreProcessGroup preserveStatus : Bool)
    (args : List String) (env : Env)
    (h : args.length < 2 ∨
      (∃ d rest, args = d :: rest ∧ (ParseTimeout d).2 ≠ none) ∨
      (ParseTimeout killDelay).2 ≠ none ∨
      (ParseSignal unicodeUpper timeoutSignal).2 ≠ none) :
    (main unicodeUpper timeoutSignal killDelay ignoreProcessGroup preserveStatus args env).exit
      = some 125 ∧
    ¬ (main unicodeUpper timeoutSignal killDelay ignoreProcessGroup preserveStatus
        args env).callsStart := by
  have h1 : args.length < 2 ∨
      (∃ d rest, args = d :: rest ∧ (ParseTimeout d).2 ≠ none) ∨
      (ParseTimeout killDelay).2 ≠ none ∨
      (ParseTimeout killDelay).1 < -1 * Second ∨
      (ParseSignal unicodeUpper timeoutSignal).2 ≠ none := by
    rcases h with h | h | h | h
    · exact Or.inl h
    · exact Or.inr (Or.inl h)
    · exact Or.inr (Or.inr (Or.inl h))
    · exact Or.inr (Or.inr (Or.inr (Or.inr h)))
  rw [main_config_error _ _ _ _ _ _ _ h1]
  refine ⟨rfl, ?_⟩
  rintro ⟨t, ht⟩
  simp at ht

/-- Claim C9 at concrete inputs: the signal name "SIGTERM" is unknown, so the
run ends with status 125 before `Start`. -/
theorem main_usage_error_exits_125_witness :
    (ParseSignal id "SIGTERM").2 ≠ none ∧
    (main id "SIGTERM" "-1" false false ["1", "sleep", "5"]
      ⟨none, WaitErr.nil, CtxErr.nil⟩).exit = some 125 ∧
    ¬ (main id "SIGTERM" "-1" false false ["1", "sleep", "5"]
      ⟨none, WaitErr.nil, CtxErr.nil⟩).callsStart :=
  ⟨by decide,
   main_usage_error_exits_125 id "SIGTERM" "-1" false false ["1", "sleep", "5"]
     ⟨none, WaitErr.nil, CtxErr.nil⟩ (Or.inr (Or.inr (Or.inr (by decide))))⟩

/-- Claim C5, as stated, fails: the `-k` value "-0.5" parses to minus half a
second, which is negative and is not the sentinel parsed from "-1", and `main`
calls `Start` with it instead of exiting with status 125. -/
theorem main_accepts_negative_killDelay :
    ParseTimeout "-0.5" = (-500000000, none) ∧
    (-500000000 : Int) < 0 ∧
    (-500000000 : Int) ≠ (ParseTimeout "-1").1 ∧
    main id "TERM" "-0.5" false false ["1", "sleep", "5"] ⟨none, WaitErr.nil, CtxErr.nil⟩ =
      ⟨[Event.start ⟨1000000000, SIGTERM, -500000000, false, false, "sleep", ["5"]⟩,
        Event.cancel], none⟩ := by
  refine ⟨ParseTimeout_neg_half, by decide, ?_, ?_⟩
  · rw [ParseTimeout_default_killDelay]
    decide
  · rw [main_config_ok id "TERM" "-0.5" false false "1" "sleep" ["5"] _ 1000000000 (-500000000)
      SIGTERM (by decide) ParseTimeout_neg_half (by decide) (by decide)]
    decide

/-- Claim C5, amended.  Every configuration that `main` hands to `Start` has
the parsed `-k` value as its `killDelay`, and that value is at least minus one
second; a negative `killDelay` leaves `WaitDelay` at zero and disables the
escalation.  For every `-k` value that parses to less than minus one second,
`main` exits with status 125 and never calls `Start`. -/
theorem main_killDelay_lower_bound (unicodeUpper : Char → Char)
    (timeoutSignal killDelay : String) (ignoreProcessGroup preserveStatus : Bool)
    (args : List String) (env : Env) :
    (∀ t, Event.start t ∈
        (main unicodeUpper timeoutSignal killDelay ignoreProcessGroup preserveStatus
          args env).events →
      ParseTimeout killDelay = (t.killDelay, none) ∧ -1 * Second ≤ t.killDelay ∧
      (t.killDelay < 0 → t.Start.WaitDelay = 0 ∧ ∀ reaped, t.escalate reaped = [])) ∧
    ((ParseTimeout killDelay).1 < -1 * Second →
      (main unicodeUpper timeoutSignal killDelay ignoreProcessGroup preserveStatus
        args env).exit = some 125 ∧
      ¬ (main unicodeUpper timeoutSignal killDelay ignoreProcessGroup preserveStatus
        args env).callsStart) := by
  constructor
  · intro t ht
    obtain ⟨h1, h2, _⟩ := main_run_of_start _ _ _ _ _ _ _ t ht
    refine ⟨h1, h2, ?_⟩
    intro hneg
    have hnot : ¬ t.killDelay > -1 := by omega
    simp only [Timeout.Start, Timeout.escalate, if_neg hnot, implies_true, and_self]
  · intro hlt
    rw [main_config_error _ _ _ _ _ _ _ (Or.inr (Or.inr (Or.inr (Or.inl hlt))))]
    refine ⟨rfl, ?_⟩
    rintro ⟨t, ht⟩
    simp at ht

/-- Claim C5, amended, at concrete inputs: "-2" parses to minus two seconds
and is rejected with status 125. -/
theorem main_killDelay_lower_bound_witness :
    (ParseTimeout "-2").1 < -1 * Second ∧
    (main id "TERM" "-2" false false ["1", "sleep", "5"]
      ⟨none, WaitErr.nil, CtxErr.nil⟩).exit = some 125 ∧
    ¬ (main id "TERM" "-2" false false ["1", "sleep", "5"]
      ⟨none, WaitErr.nil, CtxErr.nil⟩).callsStart :=
  ⟨by decide,
   (main_killDelay_lower_bound id "TERM" "-2" false false ["1", "sleep", "5"]
     ⟨none, WaitErr.nil, CtxErr.nil⟩).2 (by decide)⟩

/-- Claim C6.  In `Wait`, whatever `cmd.Wait` returned and whatever the value
of `killDelay`, if the context reports `DeadlineExceeded` and `preserveStatus`
is false then the run ends in `os.Exit(124)`. -/
theorem Wait_deadline_exits_124 (t : Timeout) (waitErr : WaitErr) (ctxErr : CtxErr)
    (hd : ctxErr = CtxErr.deadlineExceeded) (hp : t.preserveStatus = false) :
    (t.Wait waitErr ctxErr).exit = some 124 ∧ (t.Wait waitErr ctxErr).status = 124 := by
  have h : (t.Wait waitErr ctxErr).exit = some 124 := by
    unfold Timeout.Wait
    rw [if_pos ⟨hd, hp⟩]
  exact ⟨h, by simp [Outcome.status, h]⟩

/-- Claim C6 at a concrete input: the child died from SIGKILL after a forced
kill, and the status is still 124. -/
theorem Wait_deadline_exits_124_witness :
    (Timeout.Wait ⟨1000000000, SIGTERM, 1000000000, false, false, "sleep", ["5"]⟩
      (WaitErr.exitError (WaitStatus.signaled SIGKILL)) CtxErr.deadlineExceeded).exit
        = some 124 ∧
    (Timeout.Wait ⟨1000000000, SIGTERM, 1000000000, false, false, "sleep", ["5"]⟩
      (WaitErr.exitError (WaitStatus.signaled SIGKILL)) CtxErr.deadlineExceeded).status
        = 124 :=
  Wait_deadline_exits_124 ⟨1000000000, SIGTERM, 1000000000, false, false, "sleep", ["5"]⟩
    (WaitErr.exitError (WaitStatus.signaled SIGKILL)) CtxErr.deadlineExceeded rfl rfl

/-- When the deadline did not fire or `preserveStatus` is true, `Wait`
mirrors the result of `cmd.Wait`: on nil it returns without `os.Exit` and
without a signal to itself; on an exit code `c` it ends in `os.Exit(c)`; on a
terminating signal `s` it sends exactly `s` to its own pid and returns. -/
theorem Wait_mirror (t : Timeout) (waitErr : WaitErr) (ctxErr : CtxErr)
    (h : ctxErr ≠ CtxErr.deadlineExceeded ∨ t.preserveStatus = true) :
    (waitErr = WaitErr.nil →
      (t.Wait waitErr ctxErr).exit = none ∧ (t.Wait waitErr ctxErr).status = 0 ∧
      ∀ s, Event.selfSignal s ∉ (t.Wait waitErr ctxErr).events) ∧
    (∀ c, waitErr = WaitErr.exitError (WaitStatus.exited c) →
      (t.Wait waitErr ctxErr).exit = some c ∧ (t.Wait waitErr ctxErr).status = c ∧
      ∀ s, Event.selfSignal s ∉ (t.Wait waitErr ctxErr).events) ∧
    (∀ s, waitErr = WaitErr.exitError (WaitStatus.signaled s) →
      (t.Wait waitErr ctxErr).exit = none ∧
      Event.selfSignal s ∈ (t.Wait waitErr ctxErr).events ∧
      ∀ s1, Event.selfSignal s1 ∈ (t.Wait waitErr ctxErr).events → s1 = s) := by
  have hnd : ¬ (ctxErr = CtxErr.deadlineExceeded ∧ t.preserveStatus = false) := by
    rintro ⟨h1, h2⟩
    rcases h with h | h
    · exact h h1
    · rw [h2] at h
      exact Bool.noConfusion h
  have hesc : ∀ s, Event.selfSignal s ∉
      (if ctxErr = CtxErr.deadlineExceeded then t.escalate true else []) := by
    intro s hmem
    by_cases hc : ctxErr = CtxErr.deadlineExceeded
    · rw [if_pos hc] at hmem
      rcases escalate_mem t _ _ hmem with h | ⟨_, h⟩ <;> exact Event.noConfusion h
    · rw [if_neg hc] at hmem
      simp at hmem
  refine ⟨?_, ?_, ?_⟩
  · intro hw
    subst hw
    have e : t.Wait WaitErr.nil ctxErr =
        ⟨(if ctxErr = CtxErr.deadlineExceeded then t.escalate true else []) ++
          [Event.cancel], none⟩ := by
      unfold Timeout.Wait
      simp only [if_neg hnd, WaitErr.reaped]
      simp
    rw [e]
    refine ⟨rfl, rfl, ?_⟩
    intro s hs
    simp only [List.mem_append, List.mem_singleton] at hs
    rcases hs with hs | hs
    · exact hesc s hs
    · exact Event.noConfusion hs
  · intro c hw
    subst hw
    have e : t.Wait (WaitErr.exitError (WaitStatus.exited c)) ctxErr =
        ⟨(if ctxErr = CtxErr.deadlineExceeded then t.escalate true else []), some c⟩ := by
      unfold Timeout.Wait
      simp only [if_neg hnd, WaitErr.reaped]
      simp
    rw [e]
    exact ⟨rfl, rfl, hesc⟩
  · intro s hw
    subst hw
    have e : t.Wait (WaitErr.exitError (WaitStatus.signaled s)) ctxErr =
        ⟨(if ctxErr = CtxErr.deadlineExceeded then t.escalate true else []) ++
          [Event.selfSignal s, Event.cancel], none⟩ := by
      unfold Timeout.Wait
      simp only [if_neg hnd, WaitErr.reaped]
      simp
    rw [e]
    refine ⟨rfl, by simp, ?_⟩
    intro s1 hs
    simp only [List.mem_append, List.mem_cons, List.mem_singleton, List.not_mem_nil,
      or_false] at hs
    rcases hs with hs | hs | hs
    · exact absurd hs (hesc s1)
    · injection hs
    · exact Event.noConfusion hs

/-- Claim C7.  In a run of `main` that started the child, when the deadline
did not fire or `-p` was given: if `cmd.Wait` returned nil, `main` returns
without `os.Exit` (status 0) and without a signal to itself; if the child
exited with code `c`, the run ends in `os.Exit(c)`; if the child was
terminated by signal `s`, the supervisor sends exactly `s` to its own pid and
does not call `os.Exit`. -/
theorem main_mirrors_child_status (unicodeUpper : Char → Char)
    (timeoutSignal killDelay : String) (ignoreProcessGroup preserveStatus : Bool)
    (args : List String) (env : Env)
    (hcalls : (main unicodeUpper timeoutSignal killDelay ignoreProcessGroup preserveStatus
      args env).callsStart)
    (hstart : env.startErr = none)
    (h : env.ctxErr ≠ CtxErr.deadlineExceeded ∨ preserveStatus = true) :
    (env.waitErr = WaitErr.nil →
      (main unicodeUpper timeoutSignal killDelay ignoreProcessGroup preserveStatus
        args env).exit = none ∧
      (main unicodeUpper timeoutSignal killDelay ignoreProcessGroup preserveStatus
        args env).status = 0 ∧
      ∀ s, Event.selfSignal s ∉
        (main unicodeUpper timeoutSignal killDelay ignoreProcessGroup preserveStatus
          args env).events) ∧
    (∀ c, env.waitErr = WaitErr.exitError (WaitStatus.exited c) →
      (main unicodeUpper timeoutSignal killDelay ignoreProcessGroup preserveStatus
        args env).exit = some c ∧
      (main unicodeUpper timeoutSignal killDelay ignoreProcessGroup preserveStatus
        args env).status = c ∧
      ∀ s, Event.selfSignal s ∉
        (main unicodeUpper timeoutSignal killDelay ignoreProcessGroup preserveStatus
          args env).events) ∧
    (∀ s, env.waitErr = WaitErr.exitError (WaitStatus.signaled s) →
      (main unicodeUpper timeoutSignal killDelay ignoreProcessGroup preserveStatus
        args env).exit = none ∧
      Event.selfSignal s ∈
        (main unicodeUpper timeoutSignal killDelay ignoreProcessGroup preserveStatus
          args env).events ∧
      ∀ s1, Event.selfSignal s1 ∈
        (main unicodeUpper timeoutSignal killDelay ignoreProcessGroup preserveStatus
          args env).events → s1 = s) := by
  obtain ⟨t, ht⟩ := hcalls
  obtain ⟨_, _, _, hp, hm⟩ := main_run_of_start _ _ _ _ _ _ _ t ht
  rw [hstart] at hm
  simp only at hm
  have hw := Wait_mirror t env.waitErr env.ctxErr (by rw [hp]; exact h)
  have hev : ∀ s, Event.selfSignal s ∈
      Event.start t :: (t.Wait env.waitErr env.ctxErr).events ↔
      Event.selfSignal s ∈ (t.Wait env.waitErr env.ctxErr).events := by
    intro s
    simp
  rw [hm]
  simp only [Outcome.status, hev]
  exact hw

/-- Claim C7 at concrete inputs: with `-p`, a deadline that fired and a child
killed by SIGTERM, the supervisor signals itself with SIGTERM and does not call
`os.Exit`. -/
theorem main_mirrors_child_status_witness :
    (main id "TERM" "-1" false true ["1", "sleep", "5"]
      ⟨none, WaitErr.exitError (WaitStatus.signaled SIGTERM),
        CtxErr.deadlineExceeded⟩).callsStart ∧
    (main id "TERM" "-1" false true ["1", "sleep", "5"]
      ⟨none, WaitErr.exitError (WaitStatus.signaled SIGTERM),
        CtxErr.deadlineExceeded⟩).exit = none ∧
    Event.selfSignal SIGTERM ∈
      (main id "TERM" "-1" false true ["1", "sleep", "5"]
        ⟨none, WaitErr.exitError (WaitStatus.signaled SIGTERM),
          CtxErr.deadlineExceeded⟩).events :=
  have hc : (main id "TERM" "-1" false true ["1", "sleep", "5"]
      ⟨none, WaitErr.exitError (WaitStatus.signaled SIGTERM),
        CtxErr.deadlineExceeded⟩).callsStart :=
    ⟨⟨1000000000, SIGTERM, -1000000000, false, true, "sleep", ["5"]⟩, by decide⟩
  ⟨hc,
   ((main_mirrors_child_status id "TERM" "-1" false true ["1", "sleep", "5"]
      ⟨none, WaitErr.exitError (WaitStatus.signaled SIGTERM), CtxErr.deadlineExceeded⟩
      hc rfl (Or.inr rfl)).2.2 SIGTERM rfl).1,
   ((main_mirrors_child_status id "TERM" "-1" false true ["1", "sleep", "5"]
      ⟨none, WaitErr.exitError (WaitStatus.signaled SIGTERM), CtxErr.deadlineExceeded⟩
      hc rfl (Or.inr rfl)).2.2 SIGTERM rfl).2.1⟩

/-- Claim C8.  With `killDelay` equal to the value parsed from the default
`-k` string "-1" (minus one second), `Start` leaves `WaitDelay` at zero and
`Wait`, for every result of `cmd.Wait` and of `ctx.Err`, performs no sleep and
sends no SIGKILL to the child or to its process group. -/
theorem disabled_killDelay_never_escalates (t : Timeout) (waitErr : WaitErr) (ctxErr : CtxErr)
    (h : t.killDelay = (ParseTimeout "-1").1) :
    ParseTimeout "-1" = (-1000000000, none) ∧
    t.Start.WaitDelay = 0 ∧
    ¬ sleeps (t.Wait waitErr ctxErr).events ∧
    ¬ sendsKill (t.Wait waitErr ctxErr).events := by
  rw [ParseTimeout_default_killDelay] at h
  have hnot : ¬ t.killDelay > -1 := by
    simp only at h
    omega
  have hesc : t.escalate waitErr.reaped = [] := by
    simp only [Timeout.escalate, if_neg hnot]
  obtain ⟨tail, he, htail⟩ := Wait_events t waitErr ctxErr
  rw [hesc] at he
  have he1 : (t.Wait waitErr ctxErr).events = tail := by
    rw [he]
    split <;> rfl
  refine ⟨ParseTimeout_default_killDelay, ?_, ?_, ?_⟩
  · simp only [Timeout.Start, if_neg hnot]
  · rintro ⟨d, hd⟩
    rw [he1] at hd
    rcases htail _ hd with h1 | ⟨s, h1⟩ <;> exact Event.noConfusion h1
  · rintro ⟨tg, hd⟩
    rw [he1] at hd
    rcases htail _ hd with h1 | ⟨s, h1⟩ <;> exact Event.noConfusion h1

/-- Claim C8 at a concrete input: the default configuration, a deadline that
fired and a child killed by the primary signal. -/
theorem disabled_killDelay_never_escalates_witness :
    (⟨1000000000, SIGTERM, -1000000000, false, false, "sleep", ["5"]⟩ : Timeout).killDelay
      = (ParseTimeout "-1").1 ∧
    (Timeout.Start ⟨1000000000, SIGTERM, -1000000000, false, false, "sleep", ["5"]⟩).WaitDelay
      = 0 ∧
    ¬ sleeps (Timeout.Wait ⟨1000000000, SIGTERM, -1000000000, false, false, "sleep", ["5"]⟩
      (WaitErr.exitError (WaitStatus.signaled SIGTERM)) CtxErr.deadlineExceeded).events ∧
    ¬ sendsKill (Timeout.Wait ⟨1000000000, SIGTERM, -1000000000, false, false, "sleep", ["5"]⟩
      (WaitErr.exitError (WaitStatus.signaled SIGTERM)) CtxErr.deadlineExceeded).events :=
  ⟨by decide,
   (disabled_killDelay_never_escalates
      ⟨1000000000, SIGTERM, -1000000000, false, false, "sleep", ["5"]⟩
      (WaitErr.exitError (WaitStatus.signaled SIGTERM)) CtxErr.deadlineExceeded
      (by decide)).2⟩

/-- Claim C10, as stated, fails: with a kill delay of one second and the
deadline fired, `cmd.Wait` has returned the status of a child that died from
the primary signal SIGTERM, and `Wait` still sends SIGKILL to the process
group. -/
theorem Wait_kills_exited_child :
    Timeout.Wait ⟨1000000000, SIGTERM, 1000000000, false, false, "sleep", ["5"]⟩
      (WaitErr.exitError (WaitStatus.signaled SIGTERM)) CtxErr.deadlineExceeded =
      ⟨[Event.sleep 1000000000, Event.signal Target.group SIGKILL], some 124⟩ ∧
    sendsKill (Timeout.Wait ⟨1000000000, SIGTERM, 1000000000, false, false, "sleep", ["5"]⟩
      (WaitErr.exitError (WaitStatus.signaled SIGTERM)) CtxErr.deadlineExceeded).events := by
  have e : Timeout.Wait ⟨1000000000, SIGTERM, 1000000000, false, false, "sleep", ["5"]⟩
      (WaitErr.exitError (WaitStatus.signaled SIGTERM)) CtxErr.deadlineExceeded =
      ⟨[Event.sleep 1000000000, Event.signal Target.group SIGKILL], some 124⟩ := by decide
  refine ⟨e, Target.group, ?_⟩
  rw [e]
  simp

/-- Claim C10, amended.  With `killDelay` enabled (`killDelay > -1`), `Start`
sets `WaitDelay` to `killDelay`, and when the deadline fired `Wait`, after
`cmd.Wait` has returned, first sleeps for `killDelay`.  Without `-f` it then
sends SIGKILL to the process group, whatever `cmd.Wait` returned, and to
nothing else; the group is also the target of the primary signal sent by
`Cancel`.  With `-f` it calls `Process.Kill` on the child: no SIGKILL is sent
when `cmd.Wait` has reaped the child, and otherwise SIGKILL goes to the child
process alone, as the primary signal of `Cancel` does. -/
theorem Wait_escalation_after_wait (t : Timeout) (waitErr : WaitErr)
    (h : t.killDelay > -1) :
    t.Start.WaitDelay = t.killDelay ∧
    (t.ignoreProcessGroup = false →
      [Event.sleep t.killDelay, Event.signal Target.group SIGKILL] <+:
        (t.Wait waitErr CtxErr.deadlineExceeded).events ∧
      (∀ target, Event.signal target SIGKILL ∈
          (t.Wait waitErr CtxErr.deadlineExceeded).events ↔ target = Target.group) ∧
      ∀ reaped, (t.Cancel reaped).1 = [Event.signal Target.group t.timeoutSignal]) ∧
    (t.ignoreProcessGroup = true →
      [Event.sleep t.killDelay] <+: (t.Wait waitErr CtxErr.deadlineExceeded).events ∧
      (waitErr.reaped = true →
        ¬ sendsKill (t.Wait waitErr CtxErr.deadlineExceeded).events) ∧
      (waitErr.reaped = false →
        ∀ target, Event.signal target SIGKILL ∈
          (t.Wait waitErr CtxErr.deadlineExceeded).events ↔ target = Target.process) ∧
      (t.Cancel false).1 = [Event.signal Target.process t.timeoutSignal] ∧
      (t.Cancel true).1 = []) := by
  obtain ⟨tail, he, htail⟩ := Wait_events t waitErr CtxErr.deadlineExceeded
  rw [if_pos rfl] at he
  have hnotail : ∀ target, Event.signal target SIGKILL ∉ tail := by
    intro target hm
    rcases htail _ hm with h1 | ⟨s, h1⟩ <;> exact Event.noConfusion h1
  refine ⟨by simp only [Timeout.Start, if_pos h], ?_, ?_⟩
  · intro hi
    have hesc : t.escalate waitErr.reaped =
        [Event.sleep t.killDelay, Event.signal Target.group SIGKILL] := by
      simp [Timeout.escalate, if_pos h, hi]
    rw [he, hesc]
    refine ⟨List.prefix_append _ _, ?_, ?_⟩
    · intro target
      constructor
      · intro hm
        simp only [List.mem_append, List.mem_cons, List.mem_singleton, List.not_mem_nil,
          or_false] at hm
        rcases hm with (hm | hm) | hm
        · exact Event.noConfusion hm
        · injection hm
        · exact absurd hm (hnotail target)
      · intro ht
        subst ht
        simp
    · intro reaped
      unfold Timeout.Cancel
      rcases t.preserveStatus with _ | _ <;> simp [hi]
  · intro hi
    refine ⟨?_, ?_, ?_, ?_, ?_⟩
    · rw [he]
      exact ⟨processSignal waitErr.reaped SIGKILL ++ tail,
        by simp [Timeout.escalate, if_pos h, hi]⟩
    · intro hr
      have hesc : t.escalate waitErr.reaped = [Event.sleep t.killDelay] := by
        simp [Timeout.escalate, if_pos h, hi, hr, processSignal]
      rw [he, hesc]
      rintro ⟨target, hm⟩
      simp only [List.mem_append, List.mem_singleton] at hm
      rcases hm with hm | hm
      · exact Event.noConfusion hm
      · exact hnotail target hm
    · intro hr target
      have hesc : t.escalate waitErr.reaped =
          [Event.sleep t.killDelay, Event.signal Target.process SIGKILL] := by
        simp [Timeout.escalate, if_pos h, hi, hr, processSignal]
      rw [he, hesc]
      constructor
      · intro hm
        simp only [List.mem_append, List.mem_cons, List.mem_singleton, List.not_mem_nil,
          or_false] at hm
        rcases hm with (hm | hm) | hm
        · exact Event.noConfusion hm
        · injection hm
        · exact absurd hm (hnotail target)
      · intro ht
        subst ht
        simp
    · unfold Timeout.Cancel
      rcases t.preserveStatus with _ | _ <;> simp [hi, processSignal]
    · unfold Timeout.Cancel
      rcases t.preserveStatus with _ | _ <;> simp [hi, processSignal]

/-- Claim C10, amended, at concrete inputs, each with a kill delay of one
second and a child that died from the primary signal: with `-f` the reaped
child receives no SIGKILL from `Wait`; without `-f` the process group does. -/
theorem Wait_escalation_after_wait_witness :
    (⟨1000000000, SIGTERM, 1000000000, true, false, "sleep", ["5"]⟩ : Timeout).killDelay > -1 ∧
    (WaitErr.exitError (WaitStatus.signaled SIGTERM)).reaped = true ∧
    ¬ sendsKill
      (Timeout.Wait ⟨1000000000, SIGTERM, 1000000000, true, false, "sleep", ["5"]⟩
        (WaitErr.exitError (WaitStatus.signaled SIGTERM)) CtxErr.deadlineExceeded).events ∧
    [Event.sleep 1000000000, Event.signal Target.group SIGKILL] <+:
      (Timeout.Wait ⟨1000000000, SIGTERM, 1000000000, false, false, "sleep", ["5"]⟩
        (WaitErr.exitError (WaitStatus.signaled SIGTERM)) CtxErr.deadlineExceeded).events :=
  ⟨by decide, rfl,
   ((Wait_escalation_after_wait
      ⟨1000000000, SIGTERM, 1000000000, true, false, "sleep", ["5"]⟩
      (WaitErr.exitError (WaitStatus.signaled SIGTERM)) (by decide)).2.2 rfl).2.1 rfl,
   ((Wait_escalation_after_wait
      ⟨1000000000, SIGTERM, 1000000000, false, false, "sleep", ["5"]⟩
      (WaitErr.exitError (WaitStatus.signaled SIGTERM)) (by decide)).2.1 rfl).1⟩

end PosixTimeout
